import Mathlib

/-!
Verification of the spatial-intersection and light-transport core of a Rust
ray tracer (bounding-volume hierarchy, closed-form primitive intersection,
recursive shading pipeline).

The Rust code works on `f32` values.  The shallow embedding below models the
floating-point scalars by an arbitrary linear ordered field `α` (instantiated
at `ℚ` for executable witnesses and at `ℝ` where a genuine square root is
needed).  Square roots (`f32::sqrt`, used by `glm::normalize` and by the
sphere solver) are threaded through as an explicit function parameter `sq`,
instantiated with `Real.sqrt` where the value of a root matters.  Fallible
code paths (Rust index panics and `unwrap`) are modelled with `Option`.
-/

namespace RayTracer

section Vec

variable {α : Type} [LinearOrderedField α]

/-- Three-component vector, the embedding of `glm::Vec3` (src/ray.rs et al.,
components `x`, `y`, `z`). -/
structure Vec3 (α : Type) where
  x : α
  y : α
  z : α
  deriving DecidableEq, Repr

namespace Vec3

/-- Component access `v[d]` for `d in 0..3` as used by the Rust indexing
operator on `glm::Vec3`. -/
def get (v : Vec3 α) : Fin 3 → α
  | 0 => v.x
  | 1 => v.y
  | 2 => v.z

instance : Add (Vec3 α) := ⟨fun a b => ⟨a.x + b.x, a.y + b.y, a.z + b.z⟩⟩

instance : Sub (Vec3 α) := ⟨fun a b => ⟨a.x - b.x, a.y - b.y, a.z - b.z⟩⟩

instance : Neg (Vec3 α) := ⟨fun a => ⟨-a.x, -a.y, -a.z⟩⟩

instance : SMul α (Vec3 α) := ⟨fun k a => ⟨k * a.x, k * a.y, k * a.z⟩⟩

/-- Componentwise division of a vector by a scalar (Rust `Vec3 / f32`). -/
def div (v : Vec3 α) (k : α) : Vec3 α := ⟨v.x / k, v.y / k, v.z / k⟩

/-- Embedding of `glm::dot`. -/
def dot (a b : Vec3 α) : α := a.x * b.x + a.y * b.y + a.z * b.z

/-- Embedding of `glm::cross`. -/
def cross (a b : Vec3 α) : Vec3 α :=
  ⟨a.y * b.z - a.z * b.y, a.z * b.x - a.x * b.z, a.x * b.y - a.y * b.x⟩

/-- Embedding of `glm::matrix_comp_mult` on vectors: componentwise product. -/
def compMul (a b : Vec3 α) : Vec3 α := ⟨a.x * b.x, a.y * b.y, a.z * b.z⟩

/-- Embedding of `glm::normalize`: `v / sqrt(dot(v, v))`, with the square
root function passed explicitly (the Rust code uses `f32::sqrt`). -/
def normalize (sq : α → α) (v : Vec3 α) : Vec3 α := v.div (sq (dot v v))

@[simp] theorem add_x (a b : Vec3 α) : (a + b).x = a.x + b.x := rfl

@[simp] theorem add_y (a b : Vec3 α) : (a + b).y = a.y + b.y := rfl

@[simp] theorem add_z (a b : Vec3 α) : (a + b).z = a.z + b.z := rfl

@[simp] theorem sub_x (a b : Vec3 α) : (a - b).x = a.x - b.x := rfl

@[simp] theorem sub_y (a b : Vec3 α) : (a - b).y = a.y - b.y := rfl

@[simp] theorem sub_z (a b : Vec3 α) : (a - b).z = a.z - b.z := rfl

@[simp] theorem neg_x (a : Vec3 α) : (-a).x = -a.x := rfl

@[simp] theorem neg_y (a : Vec3 α) : (-a).y = -a.y := rfl

@[simp] theorem neg_z (a : Vec3 α) : (-a).z = -a.z := rfl

@[simp] theorem smul_x (k : α) (a : Vec3 α) : (k • a).x = k * a.x := rfl

@[simp] theorem smul_y (k : α) (a : Vec3 α) : (k • a).y = k * a.y := rfl

@[simp] theorem smul_z (k : α) (a : Vec3 α) : (k • a).z = k * a.z := rfl

@[simp] theorem div_x (a : Vec3 α) (k : α) : (a.div k).x = a.x / k := rfl

@[simp] theorem div_y (a : Vec3 α) (k : α) : (a.div k).y = a.y / k := rfl

@[simp] theorem div_z (a : Vec3 α) (k : α) : (a.div k).z = a.z / k := rfl

@[simp] theorem mk_x (a b c : α) : (Vec3.mk a b c).x = a := rfl

@[simp] theorem mk_y (a b c : α) : (Vec3.mk a b c).y = b := rfl

@[simp] theorem mk_z (a b c : α) : (Vec3.mk a b c).z = c := rfl

theorem ext_iff {a b : Vec3 α} : a = b ↔ a.x = b.x ∧ a.y = b.y ∧ a.z = b.z := by
  constructor
  · intro h; subst h; exact ⟨rfl, rfl, rfl⟩
  · intro ⟨h1, h2, h3⟩
    cases a; cases b
    simp_all

end Vec3

/-- Crate-level constant `EPSILON = 0.000008` from src/main.rs. -/
def EPSILON (α : Type) [LinearOrderedField α] : α := 8 / 1000000

/-- Embedding of `Ray` (src/ray.rs): origin, direction and an optional
carried attenuation color. -/
structure Ray (α : Type) where
  origin : Vec3 α
  direction : Vec3 α
  attenuation : Option (Vec3 α)
  deriving DecidableEq, Repr

namespace Ray

/-- Ray::at — the point at distance parameter `t` along the ray (named
pointAt here because `at` is reserved in Lean). -/
def pointAt (r : Ray α) (t : α) : Vec3 α := r.origin + t • r.direction

/-- Ray::new — the direction is normalized at construction. -/
def new (sq : α → α) (origin direction : Vec3 α) (attenuation : Option (Vec3 α)) : Ray α :=
  ⟨origin, Vec3.normalize sq direction, attenuation⟩

end Ray

/-- Embedding of `HitRecord` (src/hit_record.rs).  The borrowed material
reference (`material: Option<&dyn Material>`) carries no geometric data and
is inspected by no claim below, so it is not modelled. -/
structure HitRecord (α : Type) where
  hit_point : Vec3 α
  ray : Ray α
  distance : α
  outward_normal : Vec3 α
  deriving DecidableEq, Repr

namespace HitRecord

/-- HitRecord::is_front_face — whether the face is visible to the camera. -/
def isFrontFace (h : HitRecord α) : Prop :=
  Vec3.dot h.ray.direction h.outward_normal < 0

instance (h : HitRecord α) : Decidable h.isFrontFace := by
  unfold isFrontFace; infer_instance

/-- HitRecord::normal — the outward normal when the ray arrives against it,
its negation otherwise. -/
def normal (h : HitRecord α) : Vec3 α :=
  if h.isFrontFace then h.outward_normal else -h.outward_normal

end HitRecord

/-- Embedding of `AABB` (src/hittable/aabb.rs). -/
structure AABB (α : Type) where
  minimum_point : Vec3 α
  maximum_point : Vec3 α
  deriving DecidableEq, Repr

namespace AABB

/-- Entry parameter of the slab test on axis `d`: the smaller of the two
boundary-crossing parameters. -/
def slabLo (b : AABB α) (r : Ray α) (d : Fin 3) : α :=
  min ((b.minimum_point.get d - r.origin.get d) / r.direction.get d)
    ((b.maximum_point.get d - r.origin.get d) / r.direction.get d)

/-- Exit parameter of the slab test on axis `d`: the larger of the two
boundary-crossing parameters. -/
def slabHi (b : AABB α) (r : Ray α) (d : Fin 3) : α :=
  max ((b.minimum_point.get d - r.origin.get d) / r.direction.get d)
    ((b.maximum_point.get d - r.origin.get d) / r.direction.get d)

/-- AABB::hit — per-axis slab test.  Any axis whose narrowed interval is
empty (`t_max <= t_min`) is a miss.  The Rust method returns a sentinel
`HitRecord` holding no geometric data, used purely as a boolean gate by BVH
traversal (spec section 4.1), so it is embedded as `Bool`. -/
def hit (b : AABB α) (r : Ray α) (min_distance max_distance : α) : Bool :=
  (List.finRange 3).all fun d =>
    decide (max (slabLo b r d) min_distance < min (slabHi b r d) max_distance)

/-- AABB::surrounding_box — componentwise min/max union of two boxes. -/
def surroundingBox (first second : AABB α) : AABB α :=
  { minimum_point :=
      ⟨min first.minimum_point.x second.minimum_point.x,
       min first.minimum_point.y second.minimum_point.y,
       min first.minimum_point.z second.minimum_point.z⟩,
    maximum_point :=
      ⟨max first.maximum_point.x second.maximum_point.x,
       max first.maximum_point.y second.maximum_point.y,
       max first.maximum_point.z second.maximum_point.z⟩ }

/-- AABB::centroid — midpoint of the extrema. -/
def centroid (b : AABB α) : Vec3 α := (b.minimum_point + b.maximum_point).div 2

/-- Box containment as the spec states it: the outer minimum is componentwise
at most the inner minimum and the outer maximum componentwise at least the
inner maximum. -/
def containsBox (outer inner : AABB α) : Prop :=
  outer.minimum_point.x ≤ inner.minimum_point.x ∧
  outer.minimum_point.y ≤ inner.minimum_point.y ∧
  outer.minimum_point.z ≤ inner.minimum_point.z ∧
  inner.maximum_point.x ≤ outer.maximum_point.x ∧
  inner.maximum_point.y ≤ outer.maximum_point.y ∧
  inner.maximum_point.z ≤ outer.maximum_point.z

instance (outer inner : AABB α) : Decidable (containsBox outer inner) := by
  unfold containsBox; infer_instance

end AABB

/-- Embedding of `Plane` (src/hittable/plane.rs); the material value is
inspected by no claim and is not modelled. -/
structure Plane (α : Type) where
  center : Vec3 α
  normal : Vec3 α
  deriving DecidableEq, Repr

namespace Plane

/-- Plane::hit — rejects a ray whose direction is near-parallel to the
plane, the threshold being the `min_distance` argument; otherwise the
intersection distance is gated into the open interval. -/
def hit (p : Plane α) (r : Ray α) (min_distance max_distance : α) : Option (HitRecord α) :=
  if |Vec3.dot p.normal r.direction| > min_distance then
    let t := Vec3.dot (p.center - r.origin) p.normal / Vec3.dot p.normal r.direction
    if t > min_distance ∧ t < max_distance then
      some { hit_point := r.pointAt t, ray := r, distance := t, outward_normal := p.normal }
    else none
  else none

/-- Plane::bounding_box — a plane is infinite, so it has no bounding box. -/
def boundingBox (_p : Plane α) : Option (AABB α) := none

end Plane

end Vec

section ClaimsBasic

variable {α : Type} [LinearOrderedField α]

/-- C7: surrounding_box(a,b) contains both input boxes (its minimum is
componentwise at most each input minimum, its maximum componentwise at least
each input maximum), and it is minimal: any box containing both inputs
contains it. -/
theorem surroundingBox_contains_and_minimal (a b : AABB α) :
    AABB.containsBox (AABB.surroundingBox a b) a ∧
    AABB.containsBox (AABB.surroundingBox a b) b ∧
    ∀ c : AABB α, AABB.containsBox c a → AABB.containsBox c b →
      AABB.containsBox c (AABB.surroundingBox a b) := by
  refine ⟨⟨?_, ?_, ?_, ?_, ?_, ?_⟩, ⟨?_, ?_, ?_, ?_, ?_, ?_⟩, ?_⟩
  · exact min_le_left _ _
  · exact min_le_left _ _
  · exact min_le_left _ _
  · exact le_max_left _ _
  · exact le_max_left _ _
  · exact le_max_left _ _
  · exact min_le_right _ _
  · exact min_le_right _ _
  · exact min_le_right _ _
  · exact le_max_right _ _
  · exact le_max_right _ _
  · exact le_max_right _ _
  · intro c hca hcb
    exact ⟨le_min hca.1 hcb.1, le_min hca.2.1 hcb.2.1, le_min hca.2.2.1 hcb.2.2.1,
      max_le hca.2.2.2.1 hcb.2.2.2.1, max_le hca.2.2.2.2.1 hcb.2.2.2.2.1,
      max_le hca.2.2.2.2.2 hcb.2.2.2.2.2⟩

/-- Witness for C7 at concrete rational boxes: the minimality part applied to
an explicit outer box. -/
theorem surroundingBox_contains_and_minimal_witness :
    AABB.containsBox (⟨⟨-1, -1, -1⟩, ⟨2, 2, 2⟩⟩ : AABB ℚ)
      (AABB.surroundingBox ⟨⟨0, 0, 0⟩, ⟨1, 1, 1⟩⟩ ⟨⟨-1, 0, 0⟩, ⟨2, 1, 1⟩⟩) :=
  (surroundingBox_contains_and_minimal ⟨⟨0, 0, 0⟩, ⟨1, 1, 1⟩⟩
    ⟨⟨-1, 0, 0⟩, ⟨2, 1, 1⟩⟩).2.2 ⟨⟨-1, -1, -1⟩, ⟨2, 2, 2⟩⟩
    (by norm_num [AABB.containsBox]) (by norm_num [AABB.containsBox])

/-- C6: a ray whose direction is near-parallel to the plane — the absolute
dot product of the plane normal and the ray direction lying at or below the
threshold in force (the `min_distance` argument, equal to `EPSILON` at every
call site) — misses by the epsilon policy, never an exception; and a plane
has no bounding box. -/
theorem plane_parallel_miss_and_unbounded (p : Plane α) (r : Ray α) (tmin tmax : α) :
    (|Vec3.dot p.normal r.direction| ≤ tmin → Plane.hit p r tmin tmax = none) ∧
    Plane.boundingBox p = none := by
  constructor
  · intro h
    unfold Plane.hit
    rw [if_neg (not_lt.mpr h)]
  · rfl

/-- Witness for C6: a concrete ray running inside a horizontal plane, with
the threshold instantiated at the crate constant EPSILON. -/
theorem plane_parallel_miss_and_unbounded_witness :
    Plane.hit (⟨⟨0, 0, 0⟩, ⟨0, 0, 1⟩⟩ : Plane ℚ) ⟨⟨0, 0, 5⟩, ⟨1, 0, 0⟩, none⟩
      (EPSILON ℚ) 100 = none :=
  (plane_parallel_miss_and_unbounded ⟨⟨0, 0, 0⟩, ⟨0, 0, 1⟩⟩ ⟨⟨0, 0, 5⟩, ⟨1, 0, 0⟩, none⟩
    (EPSILON ℚ) 100).1 (by norm_num [Vec3.dot, EPSILON])

/-- C10: the shading normal returned by HitRecord::normal never points with
the incoming ray: the dot product of the ray direction and the returned
normal is nonpositive, because the outward normal is returned exactly when
that dot product is negative and its negation otherwise. -/
theorem hitRecord_normal_opposes_ray (h : HitRecord α) :
    Vec3.dot h.ray.direction h.normal ≤ 0 := by
  unfold HitRecord.normal
  split_ifs with hf
  · exact le_of_lt hf
  · unfold HitRecord.isFrontFace at hf
    push_neg at hf
    have : Vec3.dot h.ray.direction (-h.outward_normal) =
        -Vec3.dot h.ray.direction h.outward_normal := by
      simp [Vec3.dot, Neg.neg]
      ring
    rw [this]
    linarith

end ClaimsBasic

section SphereDefs

variable {α : Type} [LinearOrderedField α]

/-- Embedding of `Sphere` (src/hittable/sphere.rs); the material value is
inspected by no claim and is not modelled. -/
structure Sphere (α : Type) where
  center : Vec3 α
  radius : α
  deriving DecidableEq, Repr

namespace Sphere

/-- Quadratic discriminant computed by Sphere::hit:
`half_b * half_b - a * c` for `a = dot(d,d)`, `half_b = dot(oc,d)`,
`c = dot(oc,oc) - radius^2`, `oc = origin - center`. -/
def discriminant (s : Sphere α) (r : Ray α) : α :=
  let oc := r.origin - s.center
  let a := Vec3.dot r.direction r.direction
  let half_b := Vec3.dot oc r.direction
  let c := Vec3.dot oc oc - s.radius * s.radius
  half_b * half_b - a * c

/-- The smaller quadratic root `(-half_b - sqrt(disc)) / a` tried first by
Sphere::hit. -/
def rootSmall (sq : α → α) (s : Sphere α) (r : Ray α) : α :=
  (-(Vec3.dot (r.origin - s.center) r.direction) - sq (discriminant s r)) /
    Vec3.dot r.direction r.direction

/-- The larger quadratic root `(-half_b + sqrt(disc)) / a` tried second by
Sphere::hit. -/
def rootLarge (sq : α → α) (s : Sphere α) (r : Ray α) : α :=
  (-(Vec3.dot (r.origin - s.center) r.direction) + sq (discriminant s r)) /
    Vec3.dot r.direction r.direction

/-- Sphere::hit — quadratic intersection: a positive discriminant is
required, the smaller root is preferred when strictly inside the interval,
else the larger root, else a miss. -/
def hit (sq : α → α) (s : Sphere α) (r : Ray α) (min_distance max_distance : α) :
    Option (HitRecord α) :=
  if discriminant s r > 0 then
    if rootSmall sq s r < max_distance ∧ rootSmall sq s r > min_distance then
      some { hit_point := r.pointAt (rootSmall sq s r), ray := r,
             distance := rootSmall sq s r,
             outward_normal := (r.pointAt (rootSmall sq s r) - s.center).div s.radius }
    else if rootLarge sq s r < max_distance ∧ rootLarge sq s r > min_distance then
      some { hit_point := r.pointAt (rootLarge sq s r), ray := r,
             distance := rootLarge sq s r,
             outward_normal := (r.pointAt (rootLarge sq s r) - s.center).div s.radius }
    else none
  else none

end Sphere

/-- Length of a vector, `sqrt(dot(v,v))`, with the square root function
passed explicitly (glm::length). -/
def Vec3.length (sq : α → α) (v : Vec3 α) : α := sq (Vec3.dot v v)

end SphereDefs

section SphereClaims

/-- Any vector of reals with zero self dot product is zero componentwise. -/
theorem dot_self_eq_zero_imp {v : Vec3 ℝ} (h : Vec3.dot v v = 0) : v = ⟨0, 0, 0⟩ := by
  obtain ⟨x, y, z⟩ := v
  unfold Vec3.dot at h
  simp only [Vec3.mk_x, Vec3.mk_y, Vec3.mk_z] at h
  have hx : x = 0 := by nlinarith [sq_nonneg x, sq_nonneg y, sq_nonneg z]
  have hy : y = 0 := by nlinarith [sq_nonneg x, sq_nonneg y, sq_nonneg z]
  have hz : z = 0 := by nlinarith [sq_nonneg x, sq_nonneg y, sq_nonneg z]
  simp [hx, hy, hz]

/-- A positive discriminant forces a nonzero quadratic leading coefficient
`a = dot(direction, direction)`. -/
theorem sphere_a_ne_zero {s : Sphere ℝ} {r : Ray ℝ}
    (hd : 0 < Sphere.discriminant s r) : Vec3.dot r.direction r.direction ≠ 0 := by
  intro ha
  have hdir : r.direction = ⟨0, 0, 0⟩ := dot_self_eq_zero_imp ha
  unfold Sphere.discriminant at hd
  rw [hdir] at hd
  simp [Vec3.dot] at hd

/-- Root substitution for the quadratic solved by Sphere::hit. -/
theorem quad_root_eval (a hb c s' t : ℝ) (ha : a ≠ 0) (hs : s' * s' = hb * hb - a * c)
    (ht : a * t = -hb - s' ∨ a * t = -hb + s') :
    a * (t * t) + 2 * hb * t + c = 0 := by
  have h2 : a * (a * (t * t) + 2 * hb * t + c) = 0 := by
    have expand : a * (a * (t * t) + 2 * hb * t + c) =
        (a * t) * (a * t) + 2 * hb * (a * t) + a * c := by ring
    rw [expand]
    rcases ht with ht | ht <;> rw [ht] <;> linear_combination hs
  rcases mul_eq_zero.mp h2 with h | h
  · exact absurd h ha
  · exact h

/-- Squared distance from a point along a ray to a fixed center, expanded
into the quadratic form used by Sphere::hit. -/
theorem normSq_pointAt (r : Ray ℝ) (c : Vec3 ℝ) (t : ℝ) :
    Vec3.dot (r.pointAt t - c) (r.pointAt t - c) =
      Vec3.dot r.direction r.direction * (t * t) +
        2 * Vec3.dot (r.origin - c) r.direction * t +
        Vec3.dot (r.origin - c) (r.origin - c) := by
  unfold Ray.pointAt Vec3.dot
  simp only [Vec3.add_x, Vec3.add_y, Vec3.add_z, Vec3.sub_x, Vec3.sub_y, Vec3.sub_z,
    Vec3.smul_x, Vec3.smul_y, Vec3.smul_z]
  ring

/-- C4: Sphere::hit misses whenever the discriminant is nonpositive;
otherwise it returns the smaller root `(-half_b - sqrt(disc))/a` when that
root is strictly inside the interval, else the larger root when strictly
inside, else a miss; and any returned hit point lies on the sphere: the
distance from the hit point to the center equals the radius (exactly, in the
real-number model, hence within any tolerance). -/
theorem sphere_hit_spec (s : Sphere ℝ) (r : Ray ℝ) (tmin tmax : ℝ) :
    (Sphere.discriminant s r ≤ 0 → Sphere.hit Real.sqrt s r tmin tmax = none) ∧
    (0 < Sphere.discriminant s r →
      (Sphere.hit Real.sqrt s r tmin tmax).map (fun rec => rec.distance) =
        (if Sphere.rootSmall Real.sqrt s r < tmax ∧ Sphere.rootSmall Real.sqrt s r > tmin then
          some (Sphere.rootSmall Real.sqrt s r)
        else if Sphere.rootLarge Real.sqrt s r < tmax ∧ Sphere.rootLarge Real.sqrt s r > tmin then
          some (Sphere.rootLarge Real.sqrt s r)
        else none)) ∧
    (0 ≤ s.radius → ∀ rec, Sphere.hit Real.sqrt s r tmin tmax = some rec →
      Vec3.length Real.sqrt (rec.hit_point - s.center) = s.radius) := by
  refine ⟨?_, ?_, ?_⟩
  · intro h
    unfold Sphere.hit
    rw [if_neg (not_lt.mpr h)]
  · intro hd
    unfold Sphere.hit
    rw [if_pos hd]
    split_ifs with h1 h2
    · rfl
    · rfl
    · rfl
  · intro hr rec hrec
    have hroot : ∀ t : ℝ,
        (t = Sphere.rootSmall Real.sqrt s r ∨ t = Sphere.rootLarge Real.sqrt s r) →
        0 < Sphere.discriminant s r →
        Vec3.dot (r.pointAt t - s.center) (r.pointAt t - s.center) = s.radius * s.radius := by
      intro t ht hd
      have ha := sphere_a_ne_zero hd
      have hs : Real.sqrt (Sphere.discriminant s r) * Real.sqrt (Sphere.discriminant s r) =
          Sphere.discriminant s r := Real.mul_self_sqrt (le_of_lt hd)
      have hdisc : Sphere.discriminant s r =
          Vec3.dot (r.origin - s.center) r.direction * Vec3.dot (r.origin - s.center) r.direction -
            Vec3.dot r.direction r.direction *
              (Vec3.dot (r.origin - s.center) (r.origin - s.center) - s.radius * s.radius) := by
        unfold Sphere.discriminant
        rfl
      have hq := quad_root_eval (Vec3.dot r.direction r.direction)
        (Vec3.dot (r.origin - s.center) r.direction)
        (Vec3.dot (r.origin - s.center) (r.origin - s.center) - s.radius * s.radius)
        (Real.sqrt (Sphere.discriminant s r)) t ha (by rw [hs, hdisc]) (by
          rcases ht with ht | ht
          · left
            rw [ht]
            unfold Sphere.rootSmall
            field_simp
          · right
            rw [ht]
            unfold Sphere.rootLarge
            field_simp)
      rw [normSq_pointAt]
      linarith [hq]
    unfold Sphere.hit at hrec
    split_ifs at hrec with hd h1 h2
    · cases hrec
      have := hroot _ (Or.inl rfl) hd
      unfold Vec3.length
      simp only [this]
      exact Real.sqrt_mul_self hr
    · cases hrec
      have := hroot _ (Or.inr rfl) hd
      unfold Vec3.length
      simp only [this]
      exact Real.sqrt_mul_self hr

/-- Witness for C4: the unit sphere at the origin and a ray from (0,0,2)
straight down the z axis; the discriminant is 1, the smaller root is 1 and
the hit point (0,0,1) is at distance exactly 1 from the center. -/
theorem sphere_hit_spec_witness :
    (Sphere.hit Real.sqrt ⟨⟨0, 0, 0⟩, 1⟩ ⟨⟨0, 0, 2⟩, ⟨0, 0, -1⟩, none⟩ 0 10).map
      (fun rec => rec.distance) = some 1 ∧
    Vec3.length Real.sqrt
      ((⟨⟨0, 0, 1⟩, ⟨⟨0, 0, 2⟩, ⟨0, 0, -1⟩, none⟩, 1, ⟨0, 0, 1⟩⟩ : HitRecord ℝ).hit_point -
        (⟨⟨0, 0, 0⟩, 1⟩ : Sphere ℝ).center) = (⟨⟨0, 0, 0⟩, 1⟩ : Sphere ℝ).radius := by
  have hdisc : Sphere.discriminant (⟨⟨0, 0, 0⟩, 1⟩ : Sphere ℝ) ⟨⟨0, 0, 2⟩, ⟨0, 0, -1⟩, none⟩ = 1 := by
    norm_num [Sphere.discriminant, Vec3.dot]
  have hsmall : Sphere.rootSmall Real.sqrt (⟨⟨0, 0, 0⟩, 1⟩ : Sphere ℝ)
      ⟨⟨0, 0, 2⟩, ⟨0, 0, -1⟩, none⟩ = 1 := by
    unfold Sphere.rootSmall
    rw [hdisc]
    norm_num [Vec3.dot, Real.sqrt_one]
  have hhit : Sphere.hit Real.sqrt (⟨⟨0, 0, 0⟩, 1⟩ : Sphere ℝ)
      ⟨⟨0, 0, 2⟩, ⟨0, 0, -1⟩, none⟩ 0 10 =
      some ⟨⟨0, 0, 1⟩, ⟨⟨0, 0, 2⟩, ⟨0, 0, -1⟩, none⟩, 1, ⟨0, 0, 1⟩⟩ := by
    unfold Sphere.hit
    rw [hsmall, hdisc]
    rw [if_pos (by norm_num), if_pos (by norm_num)]
    norm_num [Ray.pointAt, Vec3.ext_iff]
  refine ⟨?_, ?_⟩
  · have h2 := (sphere_hit_spec ⟨⟨0, 0, 0⟩, 1⟩ ⟨⟨0, 0, 2⟩, ⟨0, 0, -1⟩, none⟩ 0 10).2.1
      (by rw [hdisc]; norm_num)
    rw [hhit] at h2
    rw [hhit]
    rw [hsmall] at h2
    rw [if_pos (by norm_num)] at h2
    exact h2
  · exact (sphere_hit_spec ⟨⟨0, 0, 0⟩, 1⟩ ⟨⟨0, 0, 2⟩, ⟨0, 0, -1⟩, none⟩ 0 10).2.2
      (by norm_num) _ hhit

end SphereClaims

section TriangleDefs

variable {α : Type} [LinearOrderedField α]

/-- Embedding of `Triangle` (src/hittable/triangle.rs).  The Rust arrays
`vertices: [Vec3; 3]`, `edges: [Vec3; 2]`, `vertex_normals: [Vec3; 3]` are
modelled slot by slot; the material value is inspected by no claim and is
not modelled. -/
structure Triangle (α : Type) where
  v0 : Vec3 α
  v1 : Vec3 α
  v2 : Vec3 α
  e0 : Vec3 α
  e1 : Vec3 α
  n0 : Vec3 α
  n1 : Vec3 α
  n2 : Vec3 α
  deriving DecidableEq, Repr

namespace Triangle

/-- Indexed access to the vertex array. -/
def vertex (tri : Triangle α) : Fin 3 → Vec3 α
  | 0 => tri.v0
  | 1 => tri.v1
  | 2 => tri.v2

/-- Triangle::new — edges are the two vertex differences and every vertex
normal is the face normal. -/
def new (a b c : Vec3 α) : Triangle α :=
  { v0 := a, v1 := b, v2 := c,
    e0 := b - a, e1 := c - a,
    n0 := Vec3.cross (b - a) (c - a),
    n1 := Vec3.cross (b - a) (c - a),
    n2 := Vec3.cross (b - a) (c - a) }

/-- Whether the stored edges agree with the stored vertices, as established
by Triangle::new (the `edges` array is redundant data in the Rust struct). -/
def edgesOk (tri : Triangle α) : Prop :=
  tri.e0 = tri.v1 - tri.v0 ∧ tri.e1 = tri.v2 - tri.v0

instance (tri : Triangle α) : Decidable tri.edgesOk := by
  unfold edgesOk; infer_instance

/-- Möller–Trumbore determinant: `elevation_angle = dot(edge_one, cross(direction, edge_two))`. -/
def hitDet (tri : Triangle α) (r : Ray α) : α :=
  Vec3.dot tri.e0 (Vec3.cross r.direction tri.e1)

/-- Möller–Trumbore barycentric coordinate `u`. -/
def hitU (tri : Triangle α) (r : Ray α) : α :=
  (1 / hitDet tri r) * Vec3.dot (r.origin - tri.v0) (Vec3.cross r.direction tri.e1)

/-- Möller–Trumbore barycentric coordinate `v`. -/
def hitV (tri : Triangle α) (r : Ray α) : α :=
  (1 / hitDet tri r) * Vec3.dot r.direction (Vec3.cross (r.origin - tri.v0) tri.e0)

/-- Möller–Trumbore distance parameter `t`. -/
def hitT (tri : Triangle α) (r : Ray α) : α :=
  (1 / hitDet tri r) * Vec3.dot tri.e1 (Vec3.cross (r.origin - tri.v0) tri.e0)

/-- Triangle::interpolate_normal — barycentric coordinates of the hit
location with respect to the two edges, then the normalized weighted sum of
the three vertex normals. -/
def interpolateNormal (sq : α → α) (tri : Triangle α) (hit_location : Vec3 α) : Vec3 α :=
  let point_to_hit := hit_location - tri.v0
  let d00 := Vec3.dot tri.e0 tri.e0
  let d01 := Vec3.dot tri.e0 tri.e1
  let d11 := Vec3.dot tri.e1 tri.e1
  let d20 := Vec3.dot point_to_hit tri.e0
  let d21 := Vec3.dot point_to_hit tri.e1
  let denom := d00 * d11 - d01 * d01
  let v := (d11 * d20 - d01 * d21) / denom
  let w := (d00 * d21 - d01 * d20) / denom
  let u := 1 - v - w
  Vec3.normalize sq (u • tri.n0 + v • tri.n1 + w • tri.n2)

/-- Triangle::hit — Möller–Trumbore test.  A determinant inside the Rust
half-open range `(-EPSILON..EPSILON)` (that is `-ε ≤ det < ε`) is a
parallel-ray miss; barycentric coordinates outside `u ∈ [0,1]`, `v ≥ 0`,
`u+v ≤ 1` are misses; the distance must lie strictly inside the interval.
The returned outward normal is the interpolated vertex normal at the hit
point. -/
def hit (sq : α → α) (tri : Triangle α) (r : Ray α) (min_distance max_distance : α) :
    Option (HitRecord α) :=
  if -EPSILON α ≤ hitDet tri r ∧ hitDet tri r < EPSILON α then none
  else if ¬(0 ≤ hitU tri r ∧ hitU tri r ≤ 1) then none
  else if hitV tri r < 0 ∨ hitU tri r + hitV tri r > 1 then none
  else if hitT tri r > min_distance ∧ hitT tri r < max_distance then
    some { hit_point := r.pointAt (hitT tri r), ray := r, distance := hitT tri r,
           outward_normal := interpolateNormal sq tri (r.pointAt (hitT tri r)) }
  else none

/-- Triangle::bounding_box — the fold of componentwise min/max over the
three vertices (the Rust loop seeds the fold with `±f32::INFINITY` and then
visits exactly the three vertices, which yields the three-way min/max). -/
def boundingBox (tri : Triangle α) : AABB α :=
  { minimum_point := ⟨min (min tri.v0.x tri.v1.x) tri.v2.x,
                      min (min tri.v0.y tri.v1.y) tri.v2.y,
                      min (min tri.v0.z tri.v1.z) tri.v2.z⟩,
    maximum_point := ⟨max (max tri.v0.x tri.v1.x) tri.v2.x,
                      max (max tri.v0.y tri.v1.y) tri.v2.y,
                      max (max tri.v0.z tri.v1.z) tri.v2.z⟩ }

end Triangle

/-- Linear scan of TriangleList::hit: fold over the triangles keeping the
hit of strictly smallest distance.  The Rust code seeds `current_min` with
`f32::INFINITY` and a `None` record; the accumulator models the pair (the
sentinel infinity together with the absent record collapse to `none`). -/
def scanHit (sq : α → α) (ts : List (Triangle α)) (r : Ray α) (min_distance max_distance : α) :
    Option (HitRecord α) :=
  ts.foldl
    (fun closest tri =>
      match Triangle.hit sq tri r min_distance max_distance with
      | some h =>
        match closest with
        | some c => if h.distance < c.distance then some h else closest
        | none => some h
      | none => closest)
    none

/-- Embedding of `TriangleList` (src/hittable/triangle.rs): the list of
triangles with the cached union bounding box. -/
structure TriangleList (α : Type) where
  triangles : List (Triangle α)
  bounding_box : AABB α
  deriving DecidableEq, Repr

namespace TriangleList

/-- TriangleList::new — caches the fold of surrounding_box over the member
boxes, seeded with the box of the first element.  Indexing `triangles[0]` of
an empty vector panics in Rust, modelled as `none`. -/
def new (ts : List (Triangle α)) : Option (TriangleList α) :=
  match ts with
  | [] => none
  | t :: _ =>
    some { triangles := ts,
           bounding_box :=
             (ts.map Triangle.boundingBox).foldl AABB.surroundingBox t.boundingBox }

/-- TriangleList::hit — brute-force linear scan retaining the globally
closest hit. -/
def hit (sq : α → α) (tl : TriangleList α) (r : Ray α) (min_distance max_distance : α) :
    Option (HitRecord α) :=
  scanHit sq tl.triangles r min_distance max_distance

end TriangleList

end TriangleDefs

section TriangleClaims

variable {α : Type} [LinearOrderedField α]

/-- C5: Triangle::hit returns a record only when the Möller–Trumbore
determinant satisfies `|det| ≥ ε`, the barycentric coordinates satisfy
`u ∈ [0,1]`, `v ≥ 0`, `u+v ≤ 1`, and the distance lies strictly inside the
interval; the outward normal of the returned record is the interpolated
vertex normal (Triangle::interpolate_normal, the normalized barycentric
interpolation of the three vertex normals) at the hit point, not the flat
face normal. -/
theorem triangle_hit_some_conditions (sq : α → α) (tri : Triangle α) (r : Ray α)
    (tmin tmax : α) (rec : HitRecord α)
    (h : Triangle.hit sq tri r tmin tmax = some rec) :
    EPSILON α ≤ |Triangle.hitDet tri r| ∧
    0 ≤ Triangle.hitU tri r ∧ Triangle.hitU tri r ≤ 1 ∧
    0 ≤ Triangle.hitV tri r ∧ Triangle.hitU tri r + Triangle.hitV tri r ≤ 1 ∧
    tmin < rec.distance ∧ rec.distance < tmax ∧
    rec.outward_normal = Triangle.interpolateNormal sq tri rec.hit_point := by
  unfold Triangle.hit at h
  split_ifs at h with h1 h2 h3 h4
  cases h
  push_neg at h1 h2 h3
  refine ⟨?_, h2.1, h2.2, h3.1, h3.2, h4.1, h4.2, rfl⟩
  rcases lt_or_ge (Triangle.hitDet tri r) (-EPSILON α) with hlt | hge
  · exact le_abs.mpr (Or.inr (by linarith))
  · exact le_abs.mpr (Or.inl (h1 hge))

/-- Concrete triangle in the plane z = 0 used by witnesses below. -/
def cTriA : Triangle ℚ := Triangle.new ⟨-1, -1, 0⟩ ⟨3, -1, 0⟩ ⟨-1, 3, 0⟩

/-- Concrete ray aimed through the interior of cTriA, with every direction
component nonzero. -/
def cRayA : Ray ℚ := ⟨⟨1/2, 1/2, 1⟩, ⟨1/10, 1/10, -1⟩, none⟩

/-- The record Triangle::hit produces for cTriA along cRayA on (0, 100). -/
def cRecA : HitRecord ℚ := ⟨⟨3/5, 3/5, 0⟩, cRayA, 1, ⟨0, 0, 1/16⟩⟩

/-- Concrete evaluation of the Möller–Trumbore test on cTriA along cRayA. -/
theorem cTriA_hit_eval : Triangle.hit id cTriA cRayA 0 100 = some cRecA := by
  have hdet : Triangle.hitDet cTriA cRayA = 16 := by
    norm_num [Triangle.hitDet, cTriA, cRayA, Triangle.new, Vec3.dot, Vec3.cross]
  have hu : Triangle.hitU cTriA cRayA = 2 / 5 := by
    rw [Triangle.hitU, hdet]
    norm_num [cTriA, cRayA, Triangle.new, Vec3.dot, Vec3.cross]
  have hv : Triangle.hitV cTriA cRayA = 2 / 5 := by
    rw [Triangle.hitV, hdet]
    norm_num [cTriA, cRayA, Triangle.new, Vec3.dot, Vec3.cross]
  have ht : Triangle.hitT cTriA cRayA = 1 := by
    rw [Triangle.hitT, hdet]
    norm_num [cTriA, cRayA, Triangle.new, Vec3.dot, Vec3.cross]
  have hpoint : cRayA.pointAt 1 = ⟨3/5, 3/5, 0⟩ := by
    norm_num [Ray.pointAt, cRayA, Vec3.ext_iff]
  unfold Triangle.hit
  rw [hdet, hu, hv, ht, hpoint]
  rw [if_neg (by norm_num [EPSILON]), if_neg (by norm_num), if_neg (by norm_num),
    if_pos (by norm_num)]
  unfold cRecA
  congr 1
  have hnormal : Triangle.interpolateNormal id cTriA ⟨3/5, 3/5, 0⟩ = ⟨0, 0, 1/16⟩ := by
    norm_num [Triangle.interpolateNormal, cTriA, Triangle.new, Vec3.dot, Vec3.cross,
      Vec3.normalize, Vec3.div, Vec3.ext_iff]
  rw [hnormal]

/-- Witness for C5: the theorem applied to the concrete hit above. -/
theorem triangle_hit_some_conditions_witness :
    EPSILON ℚ ≤ |Triangle.hitDet cTriA cRayA| ∧
    0 ≤ Triangle.hitU cTriA cRayA ∧ Triangle.hitU cTriA cRayA ≤ 1 ∧
    0 ≤ Triangle.hitV cTriA cRayA ∧
    Triangle.hitU cTriA cRayA + Triangle.hitV cTriA cRayA ≤ 1 ∧
    (0 : ℚ) < cRecA.distance ∧ cRecA.distance < 100 ∧
    cRecA.outward_normal = Triangle.interpolateNormal id cTriA cRecA.hit_point :=
  triangle_hit_some_conditions id cTriA cRayA 0 100 cRecA cTriA_hit_eval

end TriangleClaims

section BVHDefs

variable {α : Type} [LinearOrderedField α]

/-- Embedding of the mutually recursive Rust pair `BVHNode` / `BVH`
(src/hittable/bvh.rs): an inner `BVH` owns two child nodes and a bounding
box; a `BVHNode::HittableList` child is a TriangleList leaf. -/
inductive BVHTree (α : Type) where
  | node (left right : BVHTree α) (bounding_box : AABB α)
  | leaf (list : TriangleList α)
  deriving DecidableEq, Repr

namespace BVHTree

/-- BVH::hit together with the BVHNode dispatch: test this node's box, miss
means no hit; recurse left over the full interval; recurse right with the
maximum narrowed to any left hit's distance; prefer the right hit, else the
left hit, else miss.  A leaf delegates to TriangleList::hit. -/
def hit (sq : α → α) : BVHTree α → Ray α → α → α → Option (HitRecord α)
  | leaf tl, r, min_distance, max_distance => tl.hit sq r min_distance max_distance
  | node left right bounding_box, r, min_distance, max_distance =>
    if bounding_box.hit r min_distance max_distance then
      match left.hit sq r min_distance max_distance with
      | some hit_left =>
        match right.hit sq r min_distance hit_left.distance with
        | some hit_right => some hit_right
        | none => some hit_left
      | none => right.hit sq r min_distance max_distance
    else none

/-- All triangles stored below a node, in left-to-right order. -/
def tris : BVHTree α → List (Triangle α)
  | node left right _ => left.tris ++ right.tris
  | leaf tl => tl.triangles

/-- Invariant established by BVH::build: every node box contains the
bounding box of every triangle below that node. -/
def inv : BVHTree α → Prop
  | node left right bounding_box =>
    (∀ tri ∈ (node left right bounding_box).tris,
      AABB.containsBox bounding_box (Triangle.boundingBox tri)) ∧
    left.inv ∧ right.inv
  | leaf _ => True

/-- Every node box is strictly non-flat on every axis (positive extent). -/
def nonflat : BVHTree α → Prop
  | node left right bounding_box =>
    (∀ d : Fin 3,
      bounding_box.minimum_point.get d < bounding_box.maximum_point.get d) ∧
    left.nonflat ∧ right.nonflat
  | leaf _ => True

end BVHTree

/-- Centroids of the per-object bounding boxes collected by BVH::build
(every Triangle has a bounding box, so none is skipped). -/
def centroidsOf (objects : List (Triangle α)) : List (Vec3 α) :=
  objects.map fun o => (Triangle.boundingBox o).centroid

/-- Centroid spread (max minus min) on one axis.  The Rust folds are seeded
with `-INFINITY` and `INFINITY`; on the nonempty lists reaching this code
they equal the head-seeded folds used here. -/
def spreadOn (cs : List (Vec3 α)) (axis : Fin 3) : α :=
  match cs with
  | [] => 0
  | c :: rest =>
    (rest.map fun v => v.get axis).foldl max (c.get axis) -
      (rest.map fun v => v.get axis).foldl min (c.get axis)

/-- Axis of greatest centroid spread: the loop over axes 0,1,2 starting from
`maximal_spread = 0`, `split_axis = 0`, updating on strict improvement. -/
def splitAxis (cs : List (Vec3 α)) : Fin 3 :=
  ((List.finRange 3).foldl
    (fun acc axis => if spreadOn cs axis > acc.1 then (spreadOn cs axis, axis) else acc)
    ((0 : α), (0 : Fin 3))).2

/-- Split value: the mean of the projected centroids. -/
def splitMid (cs : List (Vec3 α)) (axis : Fin 3) : α :=
  (cs.map fun v => v.get axis).sum / (cs.length : α)

/-- The partition loop of BVH::build: each object goes left when its box
centroid on the split axis is strictly below the split value, else right,
preserving order. -/
def splitByMid (axis : Fin 3) (mid : α) : List (Triangle α) → List (Triangle α) × List (Triangle α)
  | [] => ([], [])
  | o :: rest =>
    let p := splitByMid axis mid rest
    if (Triangle.boundingBox o).centroid.get axis < mid then (o :: p.1, p.2)
    else (p.1, o :: p.2)

/-- The full partition step of BVH::build: centroids, split axis, mean split
value, then the comparison loop. -/
def bvhPartition (objects : List (Triangle α)) : List (Triangle α) × List (Triangle α) :=
  splitByMid (splitAxis (centroidsOf objects)) (splitMid (centroidsOf objects)
    (splitAxis (centroidsOf objects))) objects

/-- BVH::build, with an explicit fuel bound on recursion depth (the Rust
function has no termination guarantee; `none` models both a panic — the
empty-list indexing `bounding_boxes[0]` or `TriangleList::new` of an empty
partition — and fuel exhaustion, which covers the nonterminating paths).
A side whose partition exceeds `max_at_leaf` recurses, otherwise it becomes
a TriangleList leaf. -/
def buildFuel (fuel : Nat) (objects : List (Triangle α)) (max_at_leaf : Nat) :
    Option (BVHTree α) :=
  match fuel with
  | 0 => none
  | fuel + 1 =>
    match objects with
    | [] => none
    | o :: _ =>
      let bounding_box :=
        (objects.map Triangle.boundingBox).foldl AABB.surroundingBox o.boundingBox
      let parts := bvhPartition objects
      let leftChild : Option (BVHTree α) :=
        if parts.1.length > max_at_leaf then buildFuel fuel parts.1 max_at_leaf
        else (TriangleList.new parts.1).map BVHTree.leaf
      let rightChild : Option (BVHTree α) :=
        if parts.2.length > max_at_leaf then buildFuel fuel parts.2 max_at_leaf
        else (TriangleList.new parts.2).map BVHTree.leaf
      match leftChild, rightChild with
      | some l, some r => some (BVHTree.node l r bounding_box)
      | _, _ => none

end BVHDefs

section BuildClaims

/-- Degenerate build input: two identical triangles, so every centroid is
equal and the whole list falls on one side of the mean. -/
def dTri : Triangle ℚ := Triangle.new ⟨0, 0, 0⟩ ⟨1, 0, 0⟩ ⟨0, 1, 0⟩

/-- C2 evaluation: on the all-centroids-equal input the partition of
BVH::build leaves the left side empty and sends everything right, so with
`max_at_leaf = 1` construction creates an empty left child —
`TriangleList::new` of an empty vector, which panics on `triangles[0]` —
instead of falling back to a fixed partition policy; and were the guard
passed, the recursion on the unchanged right side could never shrink.  The
fueled model therefore returns `none` for every fuel. -/
theorem bvh_build_degenerate_no_fallback :
    (bvhPartition [dTri, dTri]).1 = [] ∧
    (bvhPartition [dTri, dTri]).2 = [dTri, dTri] ∧
    ∀ fuel : Nat, buildFuel fuel [dTri, dTri] 1 = none := by
  have hpart : bvhPartition [dTri, dTri] = ([], [dTri, dTri]) := by
    have hc : centroidsOf [dTri, dTri] = [⟨1/2, 1/2, 0⟩, ⟨1/2, 1/2, 0⟩] := by
      norm_num [centroidsOf, dTri, Triangle.new, Triangle.boundingBox, AABB.centroid,
        Vec3.div, Vec3.ext_iff]
    have hsp : ∀ axis : Fin 3, spreadOn (centroidsOf [dTri, dTri]) axis = 0 := by
      intro axis
      rw [hc]
      fin_cases axis <;> norm_num [spreadOn, Vec3.get]
    have haxis : splitAxis (centroidsOf [dTri, dTri]) = 0 := by
      unfold splitAxis
      rw [List.finRange]
      norm_num [List.foldl, hsp]
    have hmid : splitMid (centroidsOf [dTri, dTri]) 0 = 1 / 2 := by
      rw [hc]
      norm_num [splitMid, Vec3.get]
    unfold bvhPartition
    rw [haxis, hmid]
    norm_num [splitByMid, dTri, Triangle.new, Triangle.boundingBox, AABB.centroid,
      Vec3.div, Vec3.get]
  refine ⟨by rw [hpart], by rw [hpart], ?_⟩
  intro fuel
  match fuel with
  | 0 => rfl
  | fuel + 1 =>
    unfold buildFuel
    rw [hpart]
    simp [TriangleList.new]

end BuildClaims

section C1Counterexample

/-- Second concrete triangle: cTriA translated by +10 in x, still in the
plane z = 0, so the union box of the two is flat in z. -/
def cTriB : Triangle ℚ := Triangle.new ⟨9, -1, 0⟩ ⟨13, -1, 0⟩ ⟨9, 3, 0⟩

/-- The two-triangle scene whose BVH root box is flat in z. -/
def cObjs : List (Triangle ℚ) := [cTriA, cTriB]

/-- Box of cTriA. -/
def cBoxA : AABB ℚ := ⟨⟨-1, -1, 0⟩, ⟨3, 3, 0⟩⟩

/-- Box of cTriB. -/
def cBoxB : AABB ℚ := ⟨⟨9, -1, 0⟩, ⟨13, 3, 0⟩⟩

/-- Root box of the BVH over cObjs: the union of the two boxes, flat in z. -/
def cBoxRoot : AABB ℚ := ⟨⟨-1, -1, 0⟩, ⟨13, 3, 0⟩⟩

/-- The tree BVH::build produces from cObjs with max_at_leaf = 1. -/
def cTree : BVHTree ℚ :=
  BVHTree.node (BVHTree.leaf ⟨[cTriA], cBoxA⟩) (BVHTree.leaf ⟨[cTriB], cBoxB⟩) cBoxRoot

/-- Concrete evaluation of BVH::build on cObjs. -/
theorem cObjs_build_eval : buildFuel 2 cObjs 1 = some cTree := by
  have hc : centroidsOf cObjs = [⟨1, 1, 0⟩, ⟨11, 1, 0⟩] := by
    norm_num [centroidsOf, cObjs, cTriA, cTriB, Triangle.new, Triangle.boundingBox,
      AABB.centroid, Vec3.div, Vec3.ext_iff]
  have haxis : splitAxis (centroidsOf cObjs) = 0 := by
    unfold splitAxis
    rw [hc, List.finRange]
    norm_num [List.foldl, spreadOn, Vec3.get, min_def, max_def]
  have hmid : splitMid (centroidsOf cObjs) 0 = 6 := by
    rw [hc]; norm_num [splitMid, Vec3.get]
  have hpart : bvhPartition cObjs = ([cTriA], [cTriB]) := by
    unfold bvhPartition
    rw [haxis, hmid]
    norm_num [splitByMid, cObjs, cTriA, cTriB, Triangle.new, Triangle.boundingBox,
      AABB.centroid, Vec3.div, Vec3.get]
  have hnewA : TriangleList.new [cTriA] = some ⟨[cTriA], cBoxA⟩ := by
    norm_num [TriangleList.new, cTriA, cBoxA, Triangle.new, Triangle.boundingBox,
      AABB.surroundingBox, Vec3.ext_iff, min_def, max_def]
  have hnewB : TriangleList.new [cTriB] = some ⟨[cTriB], cBoxB⟩ := by
    norm_num [TriangleList.new, cTriB, cBoxB, Triangle.new, Triangle.boundingBox,
      AABB.surroundingBox, Vec3.ext_iff, min_def, max_def]
  have hroot : (cTriA.boundingBox.surroundingBox cTriA.boundingBox).surroundingBox
      cTriB.boundingBox = cBoxRoot := by
    norm_num [cTriA, cTriB, cBoxRoot, Triangle.new, Triangle.boundingBox,
      AABB.surroundingBox, Vec3.ext_iff, min_def, max_def]
  show buildFuel 2 (cTriA :: [cTriB]) 1 = some cTree
  unfold buildFuel
  rw [show bvhPartition (cTriA :: [cTriB]) = ([cTriA], [cTriB]) from hpart]
  norm_num [hnewA, hnewB, hroot, cTree]

/-- The root slab test fails on the flat z axis for cRayA. -/
theorem cBoxRoot_hit_eval : AABB.hit cBoxRoot cRayA 0 100 = false := by
  norm_num [AABB.hit, AABB.slabLo, AABB.slabHi, List.finRange, List.all, Vec3.get,
    cBoxRoot, cRayA, min_def, max_def]

/-- cTriB is missed by cRayA (its barycentric u is negative). -/
theorem cTriB_miss_eval : Triangle.hit id cTriB cRayA 0 100 = none := by
  have hdet : Triangle.hitDet cTriB cRayA = 16 := by
    norm_num [Triangle.hitDet, cTriB, cRayA, Triangle.new, Vec3.dot, Vec3.cross]
  have hu : Triangle.hitU cTriB cRayA = -21/10 := by
    rw [Triangle.hitU, hdet]
    norm_num [cTriB, cRayA, Triangle.new, Vec3.dot, Vec3.cross]
  unfold Triangle.hit
  rw [hdet, hu]
  rw [if_neg (by norm_num [EPSILON]), if_pos (by norm_num)]

/-- C1 counterexample: for the two coplanar triangles cObjs, the ray cRayA
(all direction components nonzero) and the interval (0, 100), BVH::build
succeeds, the brute-force scan returns the closest hit at distance 1, but
BVH traversal returns no hit at all, because the union bounding box is flat
in z and the slab test `t_max <= t_min` rejects it. -/
theorem bvh_hit_differs_from_scan :
    (buildFuel 2 cObjs 1).map
      (fun tree => (BVHTree.hit id tree cRayA 0 100).map fun rec => rec.distance) =
      some none ∧
    (scanHit id cObjs cRayA 0 100).map (fun rec => rec.distance) = some 1 := by
  constructor
  · rw [cObjs_build_eval]
    have hbvh : BVHTree.hit id cTree cRayA 0 100 = none := by
      unfold cTree
      simp [BVHTree.hit, cBoxRoot_hit_eval]
    simp [hbvh]
  · have hscan : scanHit id cObjs cRayA 0 100 = some cRecA := by
      unfold scanHit cObjs
      simp [List.foldl, cTriA_hit_eval, cTriB_miss_eval]
    rw [hscan]
    rfl

end C1Counterexample

section ScanLemmas

variable {α : Type} [LinearOrderedField α]

/-- Running minimum over a list, continuing from an optional accumulator. -/
def minFold (acc : Option α) (l : List α) : Option α :=
  l.foldl (fun a x => match a with | none => some x | some y => some (min y x)) acc

/-- Distances of the triangles of a list that the ray hits inside the
interval, in list order. -/
def hitDists (sq : α → α) (ts : List (Triangle α)) (r : Ray α) (tmin tmax : α) : List α :=
  ts.filterMap fun tri => (Triangle.hit sq tri r tmin tmax).map fun rec => rec.distance

theorem minFold_some (l : List α) (x : α) : minFold (some x) l = some (l.foldl min x) := by
  induction l generalizing x with
  | nil => rfl
  | cons y l ih => exact ih (min x y)

theorem minFold_none_iff (l : List α) : minFold none l = none ↔ l = [] := by
  cases l with
  | nil => simp [minFold]
  | cons x l =>
    constructor
    · intro h
      rw [show minFold none (x :: l) = minFold (some x) l from rfl, minFold_some] at h
      exact absurd h (by simp)
    · intro h
      exact absurd h (by simp)

theorem foldl_min_le (l : List α) (x : α) :
    l.foldl min x ≤ x ∧ ∀ y ∈ l, l.foldl min x ≤ y := by
  induction l generalizing x with
  | nil => exact ⟨le_refl x, by simp⟩
  | cons z l ih =>
    rw [List.foldl_cons]
    have h := ih (min x z)
    refine ⟨le_trans h.1 (min_le_left _ _), ?_⟩
    intro y hy
    rcases List.mem_cons.mp hy with rfl | hy
    · exact le_trans h.1 (min_le_right _ _)
    · exact h.2 y hy

theorem foldl_min_mem (l : List α) (x : α) : l.foldl min x = x ∨ l.foldl min x ∈ l := by
  induction l generalizing x with
  | nil => exact Or.inl rfl
  | cons z l ih =>
    rw [List.foldl_cons]
    rcases ih (min x z) with h | h
    · rcases min_cases x z with ⟨hm, _⟩ | ⟨hm, _⟩
      · exact Or.inl (by rw [h, hm])
      · exact Or.inr (by rw [h, hm]; exact List.mem_cons_self _ _)
    · exact Or.inr (List.mem_cons_of_mem _ h)

theorem le_foldl_min (l : List α) (x c : α) (hx : c ≤ x) (hl : ∀ y ∈ l, c ≤ y) :
    c ≤ l.foldl min x := by
  induction l generalizing x with
  | nil => exact hx
  | cons z l ih =>
    rw [List.foldl_cons]
    exact ih (min x z) (le_min hx (hl z (List.mem_cons_self _ _)))
      (fun y hy => hl y (List.mem_cons_of_mem _ hy))

theorem minFold_none_spec (l : List α) (m : α) :
    minFold none l = some m ↔ m ∈ l ∧ ∀ y ∈ l, m ≤ y := by
  cases l with
  | nil => simp [minFold]
  | cons x l =>
    rw [show minFold none (x :: l) = minFold (some x) l from rfl, minFold_some]
    constructor
    · intro h
      have hm : l.foldl min x = m := by injection h
      subst hm
      constructor
      · rcases foldl_min_mem l x with h' | h'
        · rw [h']; exact List.mem_cons_self _ _
        · exact List.mem_cons_of_mem _ h'
      · intro y hy
        rcases List.mem_cons.mp hy with hy | hy
        · exact hy ▸ (foldl_min_le l x).1
        · exact (foldl_min_le l x).2 y hy
    · intro ⟨hmem, hlb⟩
      have h1 : l.foldl min x ≤ m := by
        rcases List.mem_cons.mp hmem with h | h
        · exact h ▸ (foldl_min_le l x).1
        · exact (foldl_min_le l x).2 m h
      have h2 : m ≤ l.foldl min x :=
        le_foldl_min l x m (hlb x (List.mem_cons_self _ _))
          (fun y hy => hlb y (List.mem_cons_of_mem _ hy))
      rw [le_antisymm h1 h2]

/-- The fold of TriangleList::hit computes the running minimum of the hit
distances, for any starting accumulator. -/
theorem scan_fold_dist (sq : α → α) (r : Ray α) (tmin tmax : α) (ts : List (Triangle α))
    (acc : Option (HitRecord α)) :
    (List.foldl
      (fun closest tri =>
        match Triangle.hit sq tri r tmin tmax with
        | some h =>
          match closest with
          | some c => if h.distance < c.distance then some h else closest
          | none => some h
        | none => closest)
      acc ts).map (fun rec => rec.distance) =
    minFold (acc.map fun rec => rec.distance) (hitDists sq ts r tmin tmax) := by
  induction ts generalizing acc with
  | nil => rfl
  | cons tri ts ih =>
    rcases hh : Triangle.hit sq tri r tmin tmax with _ | h
    · rw [List.foldl_cons]
      rw [show hitDists sq (tri :: ts) r tmin tmax = hitDists sq ts r tmin tmax by
        unfold hitDists; rw [List.filterMap_cons, hh]; rfl]
      rw [← ih acc]
      congr 1
      simp [hh]
    · rw [List.foldl_cons]
      rw [show hitDists sq (tri :: ts) r tmin tmax =
          h.distance :: hitDists sq ts r tmin tmax by
        unfold hitDists; rw [List.filterMap_cons, hh]; rfl]
      cases acc with
      | none =>
        rw [show (match Triangle.hit sq tri r tmin tmax with
            | some h =>
              match (none : Option (HitRecord α)) with
              | some c => if h.distance < c.distance then some h else none
              | none => some h
            | none => none) = some h by rw [hh]]
        rw [ih (some h)]
        rfl
      | some c =>
        rw [show (match Triangle.hit sq tri r tmin tmax with
            | some h =>
              match some c with
              | some c => if h.distance < c.distance then some h else some c
              | none => some h
            | none => some c) =
            (if h.distance < c.distance then some h else some c) by rw [hh]]
        have hstep : minFold ((some c).map fun rec => rec.distance)
            (h.distance :: hitDists sq ts r tmin tmax) =
            minFold (some (min c.distance h.distance)) (hitDists sq ts r tmin tmax) := rfl
        rw [hstep]
        split_ifs with hlt
        · rw [ih (some h)]
          simp [min_eq_right (le_of_lt hlt)]
        · rw [ih (some c)]
          simp [min_eq_left (not_lt.mp hlt)]

/-- TriangleList::hit in terms of the running minimum of hit distances. -/
theorem scanHit_map_dist (sq : α → α) (ts : List (Triangle α)) (r : Ray α) (tmin tmax : α) :
    (scanHit sq ts r tmin tmax).map (fun rec => rec.distance) =
      minFold none (hitDists sq ts r tmin tmax) :=
  scan_fold_dist sq r tmin tmax ts none

end ScanLemmas

section TriangleCore

variable {α : Type} [LinearOrderedField α]

/-- The interval-free part of Triangle::hit: the determinant, u and v gates
and the constructed record, without the final distance-range gate. -/
def Triangle.hitCore (sq : α → α) (tri : Triangle α) (r : Ray α) : Option (HitRecord α) :=
  if -EPSILON α ≤ Triangle.hitDet tri r ∧ Triangle.hitDet tri r < EPSILON α then none
  else if ¬(0 ≤ Triangle.hitU tri r ∧ Triangle.hitU tri r ≤ 1) then none
  else if Triangle.hitV tri r < 0 ∨ Triangle.hitU tri r + Triangle.hitV tri r > 1 then none
  else
    some { hit_point := r.pointAt (Triangle.hitT tri r), ray := r,
           distance := Triangle.hitT tri r,
           outward_normal := Triangle.interpolateNormal sq tri (r.pointAt (Triangle.hitT tri r)) }

/-- Triangle::hit is its interval-free core gated by the distance range. -/
theorem triangle_hit_eq_core (sq : α → α) (tri : Triangle α) (r : Ray α) (tmin tmax : α) :
    Triangle.hit sq tri r tmin tmax =
      (Triangle.hitCore sq tri r).bind
        (fun rec => if rec.distance > tmin ∧ rec.distance < tmax then some rec else none) := by
  unfold Triangle.hit Triangle.hitCore
  split_ifs <;> simp [*]

theorem EPSILON_pos : (0 : α) < EPSILON α := by norm_num [EPSILON]

/-- Data carried by a successful interval-free hit. -/
theorem hitCore_some_elim (sq : α → α) (tri : Triangle α) (r : Ray α) (rec : HitRecord α)
    (h : Triangle.hitCore sq tri r = some rec) :
    rec.distance = Triangle.hitT tri r ∧
    rec.hit_point = r.pointAt (Triangle.hitT tri r) ∧
    Triangle.hitDet tri r ≠ 0 ∧
    0 ≤ Triangle.hitU tri r ∧ Triangle.hitU tri r ≤ 1 ∧
    0 ≤ Triangle.hitV tri r ∧
    Triangle.hitU tri r + Triangle.hitV tri r ≤ 1 := by
  unfold Triangle.hitCore at h
  split_ifs at h with h1 h2 h3
  cases h
  push_neg at h1 h2 h3
  refine ⟨rfl, rfl, ?_, h2.1, h2.2, h3.1, h3.2⟩
  intro hzero
  rcases lt_or_ge (Triangle.hitDet tri r) (-EPSILON α) with hlt | hge
  · rw [hzero] at hlt
    have := EPSILON_pos (α := α)
    linarith
  · have := h1 hge
    rw [hzero] at this
    have := EPSILON_pos (α := α)
    linarith

/-- Cramer solution of the Möller–Trumbore system: when the determinant is
nonzero, the point at the computed distance equals the barycentric point
spanned by the stored edges. -/
theorem mt_point_eq (tri : Triangle α) (r : Ray α) (hdet : Triangle.hitDet tri r ≠ 0) :
    r.pointAt (Triangle.hitT tri r) =
      tri.v0 + Triangle.hitU tri r • tri.e0 + Triangle.hitV tri r • tri.e1 := by
  have hdet' : tri.e0.x * (r.direction.y * tri.e1.z - r.direction.z * tri.e1.y) +
      tri.e0.y * (r.direction.z * tri.e1.x - r.direction.x * tri.e1.z) +
      tri.e0.z * (r.direction.x * tri.e1.y - r.direction.y * tri.e1.x) ≠ 0 := by
    intro hz
    apply hdet
    unfold Triangle.hitDet Vec3.dot Vec3.cross
    simp only [Vec3.mk_x, Vec3.mk_y, Vec3.mk_z]
    linarith [hz]
  rw [Vec3.ext_iff]
  refine ⟨?_, ?_, ?_⟩ <;>
  · unfold Ray.pointAt Triangle.hitT Triangle.hitU Triangle.hitV Triangle.hitDet
      Vec3.dot Vec3.cross
    simp only [Vec3.add_x, Vec3.add_y, Vec3.add_z, Vec3.sub_x, Vec3.sub_y, Vec3.sub_z,
      Vec3.smul_x, Vec3.smul_y, Vec3.smul_z, Vec3.mk_x, Vec3.mk_y, Vec3.mk_z]
    field_simp
    ring

end TriangleCore

section Containment

variable {α : Type} [LinearOrderedField α]

/-- A convex combination of three scalars lies between their min and max. -/
theorem convex3_bounds (w2 w3 a b c : α) (h2 : 0 ≤ w2) (h3 : 0 ≤ w3) (hs : w2 + w3 ≤ 1) :
    min (min a b) c ≤ (1 - w2 - w3) * a + w2 * b + w3 * c ∧
    (1 - w2 - w3) * a + w2 * b + w3 * c ≤ max (max a b) c := by
  have h1 : 0 ≤ 1 - w2 - w3 := by linarith
  constructor
  · have ma : min (min a b) c ≤ a := le_trans (min_le_left _ _) (min_le_left _ _)
    have mb : min (min a b) c ≤ b := le_trans (min_le_left _ _) (min_le_right _ _)
    have mc : min (min a b) c ≤ c := min_le_right _ _
    have t1 := mul_le_mul_of_nonneg_left ma h1
    have t2 := mul_le_mul_of_nonneg_left mb h2
    have t3 := mul_le_mul_of_nonneg_left mc h3
    nlinarith [t1, t2, t3]
  · have ma : a ≤ max (max a b) c := le_trans (le_max_left _ _) (le_max_left _ _)
    have mb : b ≤ max (max a b) c := le_trans (le_max_right _ _) (le_max_left _ _)
    have mc : c ≤ max (max a b) c := le_max_right _ _
    have t1 := mul_le_mul_of_nonneg_left ma h1
    have t2 := mul_le_mul_of_nonneg_left mb h2
    have t3 := mul_le_mul_of_nonneg_left mc h3
    nlinarith [t1, t2, t3]

theorem bbox_min_get (tri : Triangle α) (d : Fin 3) :
    (Triangle.boundingBox tri).minimum_point.get d =
      min (min (tri.v0.get d) (tri.v1.get d)) (tri.v2.get d) := by
  fin_cases d <;> rfl

theorem bbox_max_get (tri : Triangle α) (d : Fin 3) :
    (Triangle.boundingBox tri).maximum_point.get d =
      max (max (tri.v0.get d) (tri.v1.get d)) (tri.v2.get d) := by
  fin_cases d <;> rfl

/-- The hit point of a successful interval-free Möller–Trumbore test lies
inside the triangle's bounding box (for triangles whose stored edges agree
with their vertices). -/
theorem hitCore_point_in_bbox (sq : α → α) (tri : Triangle α) (r : Ray α) (rec : HitRecord α)
    (hedge : tri.edgesOk) (h : Triangle.hitCore sq tri r = some rec) (d : Fin 3) :
    (Triangle.boundingBox tri).minimum_point.get d ≤ rec.hit_point.get d ∧
    rec.hit_point.get d ≤ (Triangle.boundingBox tri).maximum_point.get d := by
  obtain ⟨hdist, hpoint, hdet, hu0, hu1, hv0, huv⟩ := hitCore_some_elim sq tri r rec h
  have hpt := mt_point_eq tri r hdet
  rw [hedge.1, hedge.2] at hpt
  have hcomp : rec.hit_point.get d =
      (1 - Triangle.hitU tri r - Triangle.hitV tri r) * tri.v0.get d +
        Triangle.hitU tri r * tri.v1.get d + Triangle.hitV tri r * tri.v2.get d := by
    rw [hpoint, hpt]
    fin_cases d <;>
    · simp [Vec3.get]
      ring
  rw [bbox_min_get, bbox_max_get, hcomp]
  exact convex3_bounds (Triangle.hitU tri r) (Triangle.hitV tri r)
    (tri.v0.get d) (tri.v1.get d) (tri.v2.get d) hu0 hv0 huv

/-- Successful Triangle::hit in terms of the interval-free core. -/
theorem triangle_hit_some_iff (sq : α → α) (tri : Triangle α) (r : Ray α) (tmin tmax : α)
    (rec : HitRecord α) :
    Triangle.hit sq tri r tmin tmax = some rec ↔
      Triangle.hitCore sq tri r = some rec ∧ tmin < rec.distance ∧ rec.distance < tmax := by
  rw [triangle_hit_eq_core]
  cases hcore : Triangle.hitCore sq tri r with
  | none => simp
  | some a =>
    show (if a.distance > tmin ∧ a.distance < tmax then some a else none) = some rec ↔ _
    split_ifs with hcond
    · constructor
      · intro h
        injection h with h
        subst h
        exact ⟨rfl, hcond.1, hcond.2⟩
      · intro ⟨h1, _⟩
        injection h1 with h1
        rw [h1]
    · constructor
      · intro h
        exact absurd h (by simp)
      · intro ⟨h1, h2, h3⟩
        injection h1 with h1
        subst h1
        exact absurd ⟨h2, h3⟩ hcond

/-- Every recorded hit distance lies strictly inside the query interval. -/
theorem hitDists_mem_bounds (sq : α → α) (ts : List (Triangle α)) (r : Ray α)
    (tmin tmax d : α) (hd : d ∈ hitDists sq ts r tmin tmax) : tmin < d ∧ d < tmax := by
  unfold hitDists at hd
  obtain ⟨tri, _, hmap⟩ := List.mem_filterMap.mp hd
  obtain ⟨rec, hrec, hdist⟩ := Option.map_eq_some'.mp hmap
  obtain ⟨_, h1, h2⟩ := (triangle_hit_some_iff sq tri r tmin tmax rec).mp hrec
  exact ⟨hdist ▸ h1, hdist ▸ h2⟩

/-- Narrowing the maximum distance filters the recorded hit distances. -/
theorem hitDists_narrow (sq : α → α) (ts : List (Triangle α)) (r : Ray α) (tmin : α)
    {m tmax : α} (hm : m ≤ tmax) :
    hitDists sq ts r tmin m =
      (hitDists sq ts r tmin tmax).filter (fun t => decide (t < m)) := by
  induction ts with
  | nil => rfl
  | cons tri ts ih =>
    show List.filterMap _ (tri :: ts) = List.filter _ (List.filterMap _ (tri :: ts))
    rw [List.filterMap_cons, List.filterMap_cons]
    rcases hcore : Triangle.hitCore sq tri r with _ | rec
    · have h1 : Triangle.hit sq tri r tmin m = none := by
        rw [triangle_hit_eq_core, hcore]; rfl
      have h2 : Triangle.hit sq tri r tmin tmax = none := by
        rw [triangle_hit_eq_core, hcore]; rfl
      rw [h1, h2]
      exact ih
    · have h1 : Triangle.hit sq tri r tmin m =
          if rec.distance > tmin ∧ rec.distance < m then some rec else none := by
        rw [triangle_hit_eq_core, hcore]
        rfl
      have h2 : Triangle.hit sq tri r tmin tmax =
          if rec.distance > tmin ∧ rec.distance < tmax then some rec else none := by
        rw [triangle_hit_eq_core, hcore]
        rfl
      rw [h1, h2]
      by_cases ha : rec.distance > tmin
      · by_cases hb : rec.distance < m
        · rw [if_pos ⟨ha, hb⟩, if_pos ⟨ha, lt_of_lt_of_le hb hm⟩]
          show rec.distance :: hitDists sq ts r tmin m =
            List.filter _ (rec.distance :: hitDists sq ts r tmin tmax)
          rw [List.filter_cons_of_pos (by simpa using hb)]
          rw [ih]
        · rw [if_neg (fun hh => hb hh.2)]
          by_cases hc : rec.distance < tmax
          · rw [if_pos ⟨ha, hc⟩]
            show hitDists sq ts r tmin m =
              List.filter _ (rec.distance :: hitDists sq ts r tmin tmax)
            rw [List.filter_cons_of_neg (by simpa using hb)]
            exact ih
          · rw [if_neg (fun hh => hc hh.2)]
            exact ih
      · rw [if_neg (fun hh => ha hh.1), if_neg (fun hh => ha hh.1)]
        exact ih

end Containment

section SlabLemma

variable {α : Type} [LinearOrderedField α]

theorem pointAt_get (r : Ray α) (t : α) (d : Fin 3) :
    (r.pointAt t).get d = r.origin.get d + t * r.direction.get d := by
  fin_cases d <;> simp [Ray.pointAt, Vec3.get]

theorem aabb_hit_true_iff (b : AABB α) (r : Ray α) (tmin tmax : α) :
    AABB.hit b r tmin tmax = true ↔
      ∀ d : Fin 3, max (AABB.slabLo b r d) tmin < min (AABB.slabHi b r d) tmax := by
  unfold AABB.hit
  rw [List.all_eq_true]
  constructor
  · intro h d
    exact of_decide_eq_true (h d (List.mem_finRange d))
  · intro h d _
    exact decide_eq_true (h d)

/-- The slab test accepts whenever the ray reaches, strictly inside the
query interval, a point of a box that is non-flat on every axis, provided no
direction component is zero. -/
theorem slab_pass_of_point (b : AABB α) (r : Ray α) (tmin tmax t : α)
    (hdir : ∀ d : Fin 3, r.direction.get d ≠ 0)
    (hflat : ∀ d : Fin 3, b.minimum_point.get d < b.maximum_point.get d)
    (hin : ∀ d : Fin 3, b.minimum_point.get d ≤ (r.pointAt t).get d ∧
      (r.pointAt t).get d ≤ b.maximum_point.get d)
    (ht1 : tmin < t) (ht2 : t < tmax) :
    AABB.hit b r tmin tmax = true := by
  rw [aabb_hit_true_iff]
  intro d
  have hdd : r.direction.get d ≠ 0 := hdir d
  have hpt : b.minimum_point.get d ≤ r.origin.get d + t * r.direction.get d ∧
      r.origin.get d + t * r.direction.get d ≤ b.maximum_point.get d := by
    have := hin d
    rwa [pointAt_get] at this
  have hLo_le : AABB.slabLo b r d ≤ t := by
    unfold AABB.slabLo
    rcases lt_or_gt_of_ne hdd with hneg | hpos
    · apply le_trans (min_le_right _ _)
      rw [div_le_iff_of_neg hneg]
      linarith [hpt.2]
    · apply le_trans (min_le_left _ _)
      rw [div_le_iff hpos]
      linarith [hpt.1]
  have hHi_ge : t ≤ AABB.slabHi b r d := by
    unfold AABB.slabHi
    rcases lt_or_gt_of_ne hdd with hneg | hpos
    · apply le_trans ?_ (le_max_left _ _)
      rw [le_div_iff_of_neg hneg]
      linarith [hpt.1]
    · apply le_trans ?_ (le_max_right _ _)
      rw [le_div_iff hpos]
      linarith [hpt.2]
  have hLoHi : AABB.slabLo b r d < AABB.slabHi b r d := by
    unfold AABB.slabLo AABB.slabHi
    apply min_lt_max.mpr
    intro he
    rw [div_eq_div_iff hdd hdd] at he
    have hcancel := mul_right_cancel₀ hdd he
    have hlh := hflat d
    linarith
  have h1 : max (AABB.slabLo b r d) tmin ≤ t := max_le hLo_le (le_of_lt ht1)
  have h2 : t ≤ min (AABB.slabHi b r d) tmax := le_min hHi_ge (le_of_lt ht2)
  rcases eq_or_lt_of_le hLo_le with heq | hlt
  · have hth : t < AABB.slabHi b r d := heq ▸ hLoHi
    exact lt_of_le_of_lt h1 (lt_min hth ht2)
  · exact lt_of_lt_of_le (max_lt hlt ht1) h2

end SlabLemma

section BoxAlgebra

variable {α : Type} [LinearOrderedField α]

theorem containsBox_refl (a : AABB α) : AABB.containsBox a a :=
  ⟨le_refl _, le_refl _, le_refl _, le_refl _, le_refl _, le_refl _⟩

theorem containsBox_trans {a b c : AABB α} (h1 : AABB.containsBox a b)
    (h2 : AABB.containsBox b c) : AABB.containsBox a c :=
  ⟨le_trans h1.1 h2.1, le_trans h1.2.1 h2.2.1, le_trans h1.2.2.1 h2.2.2.1,
   le_trans h2.2.2.2.1 h1.2.2.2.1, le_trans h2.2.2.2.2.1 h1.2.2.2.2.1,
   le_trans h2.2.2.2.2.2 h1.2.2.2.2.2⟩

theorem surr_contains_left (a b : AABB α) : AABB.containsBox (AABB.surroundingBox a b) a :=
  ⟨min_le_left _ _, min_le_left _ _, min_le_left _ _,
   le_max_left _ _, le_max_left _ _, le_max_left _ _⟩

theorem surr_contains_right (a b : AABB α) : AABB.containsBox (AABB.surroundingBox a b) b :=
  ⟨min_le_right _ _, min_le_right _ _, min_le_right _ _,
   le_max_right _ _, le_max_right _ _, le_max_right _ _⟩

theorem containsBox_get {outer inner : AABB α} (h : AABB.containsBox outer inner) (d : Fin 3) :
    outer.minimum_point.get d ≤ inner.minimum_point.get d ∧
    inner.maximum_point.get d ≤ outer.maximum_point.get d := by
  obtain ⟨h1, h2, h3, h4, h5, h6⟩ := h
  fin_cases d
  · exact ⟨h1, h4⟩
  · exact ⟨h2, h5⟩
  · exact ⟨h3, h6⟩

theorem foldl_surrounding_contains (bs : List (AABB α)) (acc : AABB α) :
    AABB.containsBox (bs.foldl AABB.surroundingBox acc) acc ∧
    ∀ b ∈ bs, AABB.containsBox (bs.foldl AABB.surroundingBox acc) b := by
  induction bs generalizing acc with
  | nil => exact ⟨containsBox_refl acc, by simp⟩
  | cons b bs ih =>
    rw [List.foldl_cons]
    have h := ih (AABB.surroundingBox acc b)
    refine ⟨containsBox_trans h.1 (surr_contains_left _ _), ?_⟩
    intro b' hb'
    rcases List.mem_cons.mp hb' with rfl | hb'
    · exact containsBox_trans h.1 (surr_contains_right _ _)
    · exact h.2 b' hb'

theorem minFold_append (acc : Option α) (A B : List α) :
    minFold acc (A ++ B) = minFold (minFold acc A) B := by
  unfold minFold
  rw [List.foldl_append]

theorem minFold_none_perm {l l' : List α} (h : l.Perm l') :
    minFold none l = minFold none l' := by
  cases hm : minFold none l with
  | none =>
    rw [minFold_none_iff] at hm
    subst hm
    rw [eq_comm, minFold_none_iff]
    exact h.symm.eq_nil
  | some mval =>
    rw [minFold_none_spec] at hm
    rw [eq_comm, minFold_none_spec]
    exact ⟨h.mem_iff.mp hm.1, fun y hy => hm.2 y (h.mem_iff.mpr hy)⟩

end BoxAlgebra

section MainEquivalence

variable {α : Type} [LinearOrderedField α]

/-- A failed box test implies no triangle below the box is hit inside the
interval. -/
theorem no_hit_of_box_miss (sq : α → α) (box : AABB α) (r : Ray α) (tmin tmax : α)
    (hb : AABB.hit box r tmin tmax = false)
    (hdir : ∀ d : Fin 3, r.direction.get d ≠ 0)
    (hnfb : ∀ d : Fin 3, box.minimum_point.get d < box.maximum_point.get d)
    (ts : List (Triangle α))
    (hcont : ∀ tri ∈ ts, AABB.containsBox box (Triangle.boundingBox tri))
    (hedges : ∀ tri ∈ ts, tri.edgesOk) :
    hitDists sq ts r tmin tmax = [] := by
  unfold hitDists
  rw [List.filterMap_eq_nil]
  intro tri htri
  cases hhit : Triangle.hit sq tri r tmin tmax with
  | none => rfl
  | some rec =>
    exfalso
    obtain ⟨hcore, ht1, ht2⟩ := (triangle_hit_some_iff sq tri r tmin tmax rec).mp hhit
    obtain ⟨hdist, hpoint, _, _, _, _, _⟩ := hitCore_some_elim sq tri r rec hcore
    have hbb := hitCore_point_in_bbox sq tri r rec (hedges tri htri) hcore
    have hcb := containsBox_get (hcont tri htri)
    have hpe : r.pointAt rec.distance = rec.hit_point := by
      rw [hdist, hpoint]
    have hin : ∀ d : Fin 3, box.minimum_point.get d ≤ (r.pointAt rec.distance).get d ∧
        (r.pointAt rec.distance).get d ≤ box.maximum_point.get d := by
      intro d
      rw [hpe]
      exact ⟨le_trans (hcb d).1 (hbb d).1, le_trans (hbb d).2 (hcb d).2⟩
    have := slab_pass_of_point box r tmin tmax rec.distance hdir hnfb hin ht1 ht2
    rw [hb] at this
    exact absurd this (by simp)

/-- Traversal computes the running minimum of the hit distances of all
triangles below the tree, for every query interval, given the build
invariant, non-flat node boxes, nonzero direction components, and
vertex-consistent edges. -/
theorem bvh_hit_dist_eq (sq : α → α) (r : Ray α)
    (hdir : ∀ d : Fin 3, r.direction.get d ≠ 0) (t : BVHTree α) :
    t.inv → t.nonflat → (∀ tri ∈ t.tris, tri.edgesOk) →
    ∀ tmin tmax : α, (BVHTree.hit sq t r tmin tmax).map (fun rec => rec.distance) =
      minFold none (hitDists sq t.tris r tmin tmax) := by
  induction t with
  | leaf tl =>
    intro _ _ _ tmin tmax
    exact scanHit_map_dist sq tl.triangles r tmin tmax
  | node l rt box ihl ihr =>
    intro hinv hnf hedges tmin tmax
    obtain ⟨hbox, hinvl, hinvr⟩ := hinv
    obtain ⟨hnfb, hnfl, hnfr⟩ := hnf
    have htris : (BVHTree.node l rt box).tris = l.tris ++ rt.tris := rfl
    have hedl : ∀ tri ∈ l.tris, tri.edgesOk := fun tri h =>
      hedges tri (by rw [htris]; exact List.mem_append_left _ h)
    have hedr : ∀ tri ∈ rt.tris, tri.edgesOk := fun tri h =>
      hedges tri (by rw [htris]; exact List.mem_append_right _ h)
    have IHl := ihl hinvl hnfl hedl
    have IHr := ihr hinvr hnfr hedr
    rw [htris]
    have hsplit : hitDists sq (l.tris ++ rt.tris) r tmin tmax =
        hitDists sq l.tris r tmin tmax ++ hitDists sq rt.tris r tmin tmax := by
      unfold hitDists
      exact List.filterMap_append _ _ _
    rw [hsplit, minFold_append]
    show (if box.hit r tmin tmax then _ else none).map _ = _
    cases hbx : box.hit r tmin tmax with
    | false =>
      rw [if_neg (by simp [hbx])]
      have hLnil : hitDists sq l.tris r tmin tmax = [] :=
        no_hit_of_box_miss sq box r tmin tmax hbx hdir hnfb l.tris
          (fun tri h => hbox tri (by rw [htris]; exact List.mem_append_left _ h)) hedl
      have hRnil : hitDists sq rt.tris r tmin tmax = [] :=
        no_hit_of_box_miss sq box r tmin tmax hbx hdir hnfb rt.tris
          (fun tri h => hbox tri (by rw [htris]; exact List.mem_append_right _ h)) hedr
      rw [hLnil, hRnil]
      rfl
    | true =>
      rw [if_pos (by simp [hbx])]
      cases hl : BVHTree.hit sq l r tmin tmax with
      | none =>
        have hLnone : minFold none (hitDists sq l.tris r tmin tmax) = none := by
          rw [← IHl tmin tmax, hl]
          rfl
        rw [minFold_none_iff] at hLnone
        rw [hLnone]
        exact IHr tmin tmax
      | some hitLeft =>
        have hLmin : minFold none (hitDists sq l.tris r tmin tmax) =
            some hitLeft.distance := by
          rw [← IHl tmin tmax, hl]
          rfl
        have hLspec := (minFold_none_spec _ _).mp hLmin
        have hLbounds := hitDists_mem_bounds sq l.tris r tmin tmax hitLeft.distance hLspec.1
        rw [hLmin]
        show ((match BVHTree.hit sq rt r tmin hitLeft.distance with
              | some hit_right => some hit_right
              | none => some hitLeft) : Option (HitRecord α)).map (fun rec => rec.distance) =
            minFold (some hitLeft.distance) (hitDists sq rt.tris r tmin tmax)
        cases hr : BVHTree.hit sq rt r tmin hitLeft.distance with
        | none =>
          have hRnone : minFold none (hitDists sq rt.tris r tmin hitLeft.distance) = none := by
            rw [← IHr tmin hitLeft.distance, hr]
            rfl
          rw [minFold_none_iff,
            hitDists_narrow sq rt.tris r tmin (le_of_lt hLbounds.2),
            List.filter_eq_nil] at hRnone
          show some hitLeft.distance = minFold (some hitLeft.distance) _
          rw [minFold_some]
          congr 1
          have hle : (hitDists sq rt.tris r tmin tmax).foldl min hitLeft.distance ≤
              hitLeft.distance := (foldl_min_le _ _).1
          have hge : hitLeft.distance ≤
              (hitDists sq rt.tris r tmin tmax).foldl min hitLeft.distance := by
            apply le_foldl_min _ _ _ (le_refl _)
            intro y hy
            by_contra hlt
            push_neg at hlt
            exact hRnone y hy (by simpa using hlt)
          exact (le_antisymm hle hge).symm
        | some hitRight =>
          have hRmin : minFold none (hitDists sq rt.tris r tmin hitLeft.distance) =
              some hitRight.distance := by
            rw [← IHr tmin hitLeft.distance, hr]
            rfl
          rw [hitDists_narrow sq rt.tris r tmin (le_of_lt hLbounds.2)] at hRmin
          have hRspec := (minFold_none_spec _ _).mp hRmin
          have hmemfull : hitRight.distance ∈ hitDists sq rt.tris r tmin tmax :=
            (List.mem_filter.mp hRspec.1).1
          have hrd_lt : hitRight.distance < hitLeft.distance := by
            have := (List.mem_filter.mp hRspec.1).2
            simpa using this
          show some hitRight.distance = minFold (some hitLeft.distance) _
          rw [minFold_some]
          congr 1
          have hle : (hitDists sq rt.tris r tmin tmax).foldl min hitLeft.distance ≤
              hitRight.distance := (foldl_min_le _ _).2 _ hmemfull
          have hge : hitRight.distance ≤
              (hitDists sq rt.tris r tmin tmax).foldl min hitLeft.distance := by
            apply le_foldl_min _ _ _ (le_of_lt hrd_lt)
            intro y hy
            rcases lt_or_ge y hitLeft.distance with hylt | hyge
            · exact hRspec.2 y (List.mem_filter.mpr ⟨hy, by simpa using hylt⟩)
            · exact le_trans (le_of_lt hrd_lt) hyge
          exact (le_antisymm hle hge).symm

end MainEquivalence

section BuildLemmas

variable {α : Type} [LinearOrderedField α]

/-- The partition loop of BVH::build permutes its input. -/
theorem splitByMid_perm (axis : Fin 3) (mid : α) (l : List (Triangle α)) :
    ((splitByMid axis mid l).1 ++ (splitByMid axis mid l).2).Perm l := by
  induction l with
  | nil => exact List.Perm.refl _
  | cons o rest ih =>
    show ((splitByMid axis mid (o :: rest)).1 ++ (splitByMid axis mid (o :: rest)).2).Perm _
    unfold splitByMid
    split_ifs with h
    · exact (ih.cons o)
    · exact List.perm_middle.trans (ih.cons o)

/-- Unfolding equation for a successful recursion step of BVH::build. -/
theorem buildFuel_succ (fuel : Nat) (o : Triangle α) (rest : List (Triangle α)) (m : Nat) :
    buildFuel (fuel + 1) (o :: rest) m =
      (match
        (if (bvhPartition (o :: rest)).1.length > m
         then buildFuel fuel (bvhPartition (o :: rest)).1 m
         else (TriangleList.new (bvhPartition (o :: rest)).1).map BVHTree.leaf),
        (if (bvhPartition (o :: rest)).2.length > m
         then buildFuel fuel (bvhPartition (o :: rest)).2 m
         else (TriangleList.new (bvhPartition (o :: rest)).2).map BVHTree.leaf) with
       | some l, some r =>
         some (BVHTree.node l r
           (((o :: rest).map Triangle.boundingBox).foldl AABB.surroundingBox o.boundingBox))
       | _, _ => none) := rfl

/-- Every tree BVH::build returns stores a permutation of the input
triangles and satisfies the box-containment invariant. -/
theorem buildFuel_props (fuel : Nat) :
    ∀ (objects : List (Triangle α)) (m : Nat) (t : BVHTree α),
    buildFuel fuel objects m = some t → t.tris.Perm objects ∧ t.inv := by
  induction fuel with
  | zero =>
    intro objects m t h
    exact absurd h (by simp [buildFuel])
  | succ fuel ih =>
    intro objects m t h
    cases objects with
    | nil => exact absurd h (by simp [buildFuel])
    | cons o rest =>
      rw [buildFuel_succ] at h
      have childProps : ∀ (part : List (Triangle α)) (c : BVHTree α),
          (if part.length > m then buildFuel fuel part m
           else (TriangleList.new part).map BVHTree.leaf) = some c →
          c.tris.Perm part ∧ c.inv := by
        intro part c hc
        split_ifs at hc with hlen
        · exact ih part m c hc
        · cases part with
          | nil => exact absurd hc (by simp [TriangleList.new])
          | cons p ps =>
            rw [show TriangleList.new (p :: ps) =
                some { triangles := p :: ps,
                       bounding_box := ((p :: ps).map Triangle.boundingBox).foldl
                         AABB.surroundingBox p.boundingBox } from rfl] at hc
            rw [Option.map_some'] at hc
            injection hc with hc
            subst hc
            exact ⟨List.Perm.refl _, trivial⟩
      rcases hL : (if (bvhPartition (o :: rest)).1.length > m
          then buildFuel fuel (bvhPartition (o :: rest)).1 m
          else (TriangleList.new (bvhPartition (o :: rest)).1).map BVHTree.leaf) with _ | l
      · rw [hL] at h
        exact absurd h (by simp)
      · rcases hR : (if (bvhPartition (o :: rest)).2.length > m
            then buildFuel fuel (bvhPartition (o :: rest)).2 m
            else (TriangleList.new (bvhPartition (o :: rest)).2).map BVHTree.leaf) with _ | rt
        · rw [hL, hR] at h
          exact absurd h (by simp)
        · rw [hL, hR] at h
          injection h with h
          subst h
          obtain ⟨hpl, hil⟩ := childProps _ _ hL
          obtain ⟨hpr, hir⟩ := childProps _ _ hR
          have hperm : ((BVHTree.node l rt
              (((o :: rest).map Triangle.boundingBox).foldl AABB.surroundingBox
                o.boundingBox)).tris).Perm (o :: rest) := by
            show (l.tris ++ rt.tris).Perm (o :: rest)
            exact (hpl.append hpr).trans (splitByMid_perm _ _ _)
          refine ⟨hperm, ?_, hil, hir⟩
          intro tri htri
          have htri' : tri ∈ o :: rest := hperm.mem_iff.mp htri
          have hmem : Triangle.boundingBox tri ∈ (o :: rest).map Triangle.boundingBox :=
            List.mem_map_of_mem _ htri'
          exact (foldl_surrounding_contains ((o :: rest).map Triangle.boundingBox)
            o.boundingBox).2 _ hmem

end BuildLemmas

section C1Amended

variable {α : Type} [LinearOrderedField α]

/-- C1 (amended): for every ray whose direction has no zero component,
every distance interval, and every non-empty triangle list on which
BVH::build succeeds and yields a tree all of whose node boxes are strictly
non-flat on every axis (and whose triangles store edges consistent with
their vertices, as Triangle::new does), BVH traversal returns the same
closest hit distance as the brute-force linear scan of TriangleList::hit,
and returns None exactly when the scan finds no hit in the interval.
Without the non-flatness proviso the equivalence fails: see the
counterexample with a box flat in z. -/
theorem bvh_build_hit_eq_scan (sq : α → α) (objects : List (Triangle α)) (fuel m : Nat)
    (tree : BVHTree α) (r : Ray α) (tmin tmax : α)
    (hb : buildFuel fuel objects m = some tree)
    (hdir : ∀ d : Fin 3, r.direction.get d ≠ 0)
    (hnf : tree.nonflat)
    (hedges : ∀ tri ∈ objects, tri.edgesOk) :
    (BVHTree.hit sq tree r tmin tmax).map (fun rec => rec.distance) =
      (scanHit sq objects r tmin tmax).map (fun rec => rec.distance) := by
  obtain ⟨hperm, hinv⟩ := buildFuel_props fuel objects m tree hb
  have hedges' : ∀ tri ∈ tree.tris, tri.edgesOk := fun tri h =>
    hedges tri (hperm.mem_iff.mp h)
  rw [scanHit_map_dist, bvh_hit_dist_eq sq r hdir tree hinv hnf hedges' tmin tmax]
  exact minFold_none_perm (hperm.filterMap _)

end C1Amended

section C1Witness

theorem new_edgesOk {α : Type} [LinearOrderedField α] (a b c : Vec3 α) :
    (Triangle.new a b c).edgesOk := ⟨rfl, rfl⟩

/-- Witness triangle with a non-flat bounding box. -/
def wTri1 : Triangle ℚ := Triangle.new ⟨0, 0, 0⟩ ⟨1, 0, 0⟩ ⟨0, 1, 1⟩

/-- Second witness triangle, translated by +10 in x. -/
def wTri2 : Triangle ℚ := Triangle.new ⟨10, 0, 0⟩ ⟨11, 0, 0⟩ ⟨10, 1, 1⟩

/-- Witness scene. -/
def wObjs : List (Triangle ℚ) := [wTri1, wTri2]

/-- Witness ray with every direction component nonzero. -/
def wRay : Ray ℚ := ⟨⟨1/4, 1/4, 1⟩, ⟨1/100, 1/100, -1⟩, none⟩

/-- Box of wTri1. -/
def wBox1 : AABB ℚ := ⟨⟨0, 0, 0⟩, ⟨1, 1, 1⟩⟩

/-- Box of wTri2. -/
def wBox2 : AABB ℚ := ⟨⟨10, 0, 0⟩, ⟨11, 1, 1⟩⟩

/-- Non-flat root box of the witness scene. -/
def wBoxRoot : AABB ℚ := ⟨⟨0, 0, 0⟩, ⟨11, 1, 1⟩⟩

/-- The tree BVH::build produces from wObjs with max_at_leaf = 1. -/
def wTree : BVHTree ℚ :=
  BVHTree.node (BVHTree.leaf ⟨[wTri1], wBox1⟩) (BVHTree.leaf ⟨[wTri2], wBox2⟩) wBoxRoot

/-- Concrete evaluation of BVH::build on the witness scene. -/
theorem wObjs_build_eval : buildFuel 2 wObjs 1 = some wTree := by
  have hc : centroidsOf wObjs = [⟨1/2, 1/2, 1/2⟩, ⟨21/2, 1/2, 1/2⟩] := by
    norm_num [centroidsOf, wObjs, wTri1, wTri2, Triangle.new, Triangle.boundingBox,
      AABB.centroid, Vec3.div, Vec3.ext_iff]
  have haxis : splitAxis (centroidsOf wObjs) = 0 := by
    unfold splitAxis
    rw [hc, List.finRange]
    norm_num [List.foldl, spreadOn, Vec3.get, min_def, max_def]
  have hmid : splitMid (centroidsOf wObjs) 0 = 11/2 := by
    rw [hc]; norm_num [splitMid, Vec3.get]
  have hpart : bvhPartition wObjs = ([wTri1], [wTri2]) := by
    unfold bvhPartition
    rw [haxis, hmid]
    norm_num [splitByMid, wObjs, wTri1, wTri2, Triangle.new, Triangle.boundingBox,
      AABB.centroid, Vec3.div, Vec3.get]
  have hnew1 : TriangleList.new [wTri1] = some ⟨[wTri1], wBox1⟩ := by
    norm_num [TriangleList.new, wTri1, wBox1, Triangle.new, Triangle.boundingBox,
      AABB.surroundingBox, Vec3.ext_iff, min_def, max_def]
  have hnew2 : TriangleList.new [wTri2] = some ⟨[wTri2], wBox2⟩ := by
    norm_num [TriangleList.new, wTri2, wBox2, Triangle.new, Triangle.boundingBox,
      AABB.surroundingBox, Vec3.ext_iff, min_def, max_def]
  have hroot : (wTri1.boundingBox.surroundingBox wTri1.boundingBox).surroundingBox
      wTri2.boundingBox = wBoxRoot := by
    norm_num [wTri1, wTri2, wBoxRoot, Triangle.new, Triangle.boundingBox,
      AABB.surroundingBox, Vec3.ext_iff, min_def, max_def]
  show buildFuel 2 (wTri1 :: [wTri2]) 1 = some wTree
  unfold buildFuel
  rw [show bvhPartition (wTri1 :: [wTri2]) = ([wTri1], [wTri2]) from hpart]
  norm_num [hnew1, hnew2, hroot, wTree]

/-- Witness for the amended C1: the equivalence theorem applied to the
witness scene, ray and interval, with every hypothesis discharged
concretely. -/
theorem bvh_build_hit_eq_scan_witness :
    (BVHTree.hit id wTree wRay 0 100).map (fun rec => rec.distance) =
      (scanHit id wObjs wRay 0 100).map (fun rec => rec.distance) :=
  bvh_build_hit_eq_scan id wObjs 2 1 wTree wRay 0 100 wObjs_build_eval
    (by intro d; fin_cases d <;> norm_num [wRay, Vec3.get])
    (by refine ⟨?_, trivial, trivial⟩
        intro d
        fin_cases d <;> norm_num [wTree, wBoxRoot, Vec3.get])
    (by intro tri htri
        rcases List.mem_cons.mp htri with rfl | htri
        · exact new_edgesOk _ _ _
        · rcases List.mem_cons.mp htri with rfl | htri
          · exact new_edgesOk _ _ _
          · exact absurd htri (List.not_mem_nil _))

end C1Witness

section IntegratorDefs

variable {α : Type} [LinearOrderedField α]

/-- Embedding of `Light` (src/light.rs): point light position and weight. -/
structure Light (α : Type) where
  position : Vec3 α
  weight : α
  deriving DecidableEq, Repr

/-- The 8-bit color conversion `color(r, g, b)` of src/main.rs. -/
def color (r g b : Nat) : Vec3 α := ⟨(r : α) / 255, (g : α) / 255, (b : α) / 255⟩

/-- The inline sky gradient of ray_color:
`0.5 * color(245,64,64) * (1-t) + 1.5 * color(255,201,34) * t` where `t`
is the x component of the normalized ray direction. -/
def skyColor (sq : α → α) (ray : Ray α) : Vec3 α :=
  ((1 - (Vec3.normalize sq ray.direction).x) • ((1 / 2 : α) • color 245 64 64)) +
    ((Vec3.normalize sq ray.direction).x • ((3 / 2 : α) • color 255 201 34))

/-- Embedding of `ray_color` (src/main.rs): the top-level recursive
integrator, generic over the world (the `T: Hittable` hit method) and over
the material dispatch (`hit.material.unwrap().scatter`, passed as the
function `scatter`; records produced by the geometry always carry a
material, so the unwrap of a missing material is not modelled).  `maxDist`
stands for the constant `MAX_HIT_DISTANCE = f32::INFINITY`; the unwrap of a
scattered ray without attenuation (a Rust panic) is `none`.  Recursion
decrements the depth; depth 0 returns black. -/
def rayColor (sq : α → α) (world : Ray α → α → α → Option (HitRecord α))
    (scatter : Ray α → HitRecord α → Option (Ray α)) (lights : List (Light α))
    (maxDist : α) : Ray α → Nat → Option (Vec3 α)
  | _, 0 => some ⟨0, 0, 0⟩
  | ray, depth + 1 =>
    match world ray (EPSILON α) maxDist with
    | some hit =>
      match scatter ray hit with
      | some scattered_ray =>
        match scattered_ray.attenuation with
        | some att =>
          (rayColor sq world scatter lights maxDist scattered_ray depth).map
            fun c => Vec3.compMul att c
        | none => none
      | none => some ⟨0, 0, 0⟩
    | none => some (skyColor sq ray)

end IntegratorDefs

section IntegratorClaims

variable {α : Type} [LinearOrderedField α]

/-- C3: the top-level recursive integrator called with depth limit 0
returns black (0,0,0) for every ray, world, scatter behaviour and light
list — the recursion bottoms out regardless of scene topology. -/
theorem ray_color_depth_zero (sq : α → α) (world : Ray α → α → α → Option (HitRecord α))
    (scatter : Ray α → HitRecord α → Option (Ray α)) (lights : List (Light α))
    (maxDist : α) (ray : Ray α) :
    rayColor sq world scatter lights maxDist ray 0 = some ⟨0, 0, 0⟩ := rfl

end IntegratorClaims

section TransparentDefs

variable {α : Type} [LinearOrderedField α]

/-- Embedding of `glm::reflect_vec`: `I - 2 * dot(N, I) * N`. -/
def reflectVec (i n : Vec3 α) : Vec3 α := i - (2 * Vec3.dot n i) • n

/-- Embedding of `Transparent` (src/material/transparent.rs). -/
structure Transparent (α : Type) where
  albedo : Vec3 α
  reflectance : α
  transmittance : α
  refractive_index : α
  deriving DecidableEq, Repr

namespace Transparent

/-- Transparent::total_internal_reflection — Snell test with the refractive
index (or its reciprocal, for a ray arriving from inside) as eta. -/
def totalInternalReflection (hit_record : HitRecord α) (incoming_ray : Ray α)
    (refractive_index : α) : Prop :=
  1 - (1 - Vec3.dot hit_record.outward_normal (-incoming_ray.direction) *
        Vec3.dot hit_record.outward_normal (-incoming_ray.direction)) /
      ((if Vec3.dot hit_record.outward_normal (-incoming_ray.direction) < 0
        then 1 / refractive_index else refractive_index) *
       (if Vec3.dot hit_record.outward_normal (-incoming_ray.direction) < 0
        then 1 / refractive_index else refractive_index)) < 0

instance (hit_record : HitRecord α) (incoming_ray : Ray α) (refractive_index : α) :
    Decidable (totalInternalReflection hit_record incoming_ray refractive_index) := by
  unfold totalInternalReflection; infer_instance

/-- Transparent::shade — the reflected branch is always traced; under total
internal reflection it is returned alone; otherwise the refracted direction
is computed analytically and the two weighted recursive radiances are
blended.  `traceRay` stands for the crate-level `trace_ray` with the world,
lights and sky arguments threaded through unchanged. -/
def shade (sq : α → α) (m : Transparent α) (traceRay : Ray α → Nat → Vec3 α)
    (incoming_ray : Ray α) (hit_record : HitRecord α) (depth : Nat) : Vec3 α :=
  let reflected_direction := reflectVec incoming_ray.direction hit_record.normal
  let reflected_ray := Ray.new sq hit_record.hit_point reflected_direction (some m.albedo)
  let reflectance :=
    (m.reflectance / Vec3.dot hit_record.outward_normal reflected_direction) • m.albedo
  let reflected_color := traceRay reflected_ray (depth - 1)
  if totalInternalReflection hit_record incoming_ray m.refractive_index then
    reflected_color
  else
    let cos0 := Vec3.dot hit_record.outward_normal (-incoming_ray.direction)
    let cos_theta_i := if cos0 < 0 then -cos0 else cos0
    let normal := if cos0 < 0 then -hit_record.outward_normal else hit_record.outward_normal
    let eta := if cos0 < 0 then 1 / m.refractive_index else m.refractive_index
    let cos_theta_2 := sq (1 - (1 - cos_theta_i * cos_theta_i) / (eta * eta))
    let transmitted_direction :=
      (-incoming_ray.direction).div eta - (cos_theta_2 - cos_theta_i / eta) • normal
    let transmitted_ray := Ray.new sq hit_record.hit_point transmitted_direction (some m.albedo)
    let transmittance :=
      ((m.transmittance / (eta * eta)) • m.albedo).div
        |Vec3.dot hit_record.outward_normal transmitted_direction|
    let transmitted_color := traceRay transmitted_ray (depth - 1)
    |Vec3.dot hit_record.outward_normal reflected_direction| •
        Vec3.compMul reflectance reflected_color +
      |Vec3.dot hit_record.outward_normal transmitted_direction| •
        Vec3.compMul transmittance transmitted_color

end Transparent

end TransparentDefs

section TransparentClaims

variable {α : Type} [LinearOrderedField α]

/-- C8: beyond the critical angle — whenever `1 - (1 - cos^2) / eta^2 < 0`
per Snell's law, with eta chosen by the side the ray arrives from —
Transparent::shade returns exactly the radiance of the reflected branch; no
refracted ray is traced and the refraction branch contributes zero. -/
theorem transparent_tir_reflect_only (sq : α → α) (m : Transparent α)
    (traceRay : Ray α → Nat → Vec3 α) (incoming_ray : Ray α) (hit_record : HitRecord α)
    (depth : Nat)
    (h : Transparent.totalInternalReflection hit_record incoming_ray m.refractive_index) :
    Transparent.shade sq m traceRay incoming_ray hit_record depth =
      traceRay (Ray.new sq hit_record.hit_point
        (reflectVec incoming_ray.direction hit_record.normal) (some m.albedo)) (depth - 1) := by
  unfold Transparent.shade
  rw [if_pos h]

/-- Concrete transparent material for the C8 witness: refractive index 1/2
so a ray arriving at grazing incidence is beyond the critical angle. -/
def wGlass : Transparent ℚ := ⟨⟨1, 1, 1⟩, 1, 1, 1/2⟩

/-- Concrete incoming ray for the C8 witness. -/
def wInRay : Ray ℚ := ⟨⟨2, 0, 1⟩, ⟨-2, 0, -1/2⟩, none⟩

/-- Concrete hit record for the C8 witness. -/
def wHit : HitRecord ℚ := ⟨⟨0, 0, 0⟩, wInRay, 1, ⟨0, 0, 1⟩⟩

/-- Witness for C8: the cosine is 1/2 and eta is 1/2, so
`1 - (1 - 1/4)/(1/4) = -2 < 0`, and shade returns exactly the traced
reflected ray. -/
theorem transparent_tir_reflect_only_witness :
    Transparent.shade id wGlass (fun _ _ => ⟨0, 0, 0⟩) wInRay wHit 3 =
      (fun (_ : Ray ℚ) (_ : Nat) => (⟨0, 0, 0⟩ : Vec3 ℚ))
        (Ray.new id wHit.hit_point
          (reflectVec wInRay.direction wHit.normal) (some wGlass.albedo)) (3 - 1) :=
  transparent_tir_reflect_only id wGlass (fun _ _ => ⟨0, 0, 0⟩) wInRay wHit 3
    (by norm_num [Transparent.totalInternalReflection, wGlass, wInRay, wHit, Vec3.dot])

end TransparentClaims

section JitterDefs

/-- Grid of sub-pixel sample positions: the array `jitter_boxes` of
src/main.rs, an N by N matrix of (x, y) pairs. -/
def JitterGrid (n : Nat) : Type := Fin n → Fin n → ℚ × ℚ

/-- Canonical multi-jittered arrangement (src/main.rs, the initialization
loop): `x = (i + (j + r1)/n)/n`, `y = (j + (i + r2)/n)/n`, with `r1`, `r2`
the per-cell random draws from [0,1). -/
def canonicalJitter (n : Nat) (r1 r2 : Fin n → Fin n → ℚ) : JitterGrid n :=
  fun j i =>
    (((i : ℚ) + ((j : ℚ) + r1 j i) / n) / n,
     ((j : ℚ) + ((i : ℚ) + r2 j i) / n) / n)

/-- Pointwise array store. -/
def gridUpdate {n : Nat} (g : JitterGrid n) (j i : Fin n) (v : ℚ × ℚ) : JitterGrid n :=
  fun j' i' => if j' = j ∧ i' = i then v else g j' i'

/-- Body of the first shuffle loop at (j, i) with random row draw k: swap
the x coordinates of samples (j,i) and (k,i). -/
def shuffleStep1 {n : Nat} (g : JitterGrid n) (j i k : Fin n) : JitterGrid n :=
  let temp := (g j i).1
  let g1 := gridUpdate g j i ((g k i).1, (g j i).2)
  gridUpdate g1 k i (temp, (g1 k i).2)

/-- Body of the second shuffle loop at (i, j) with random column draw k,
exactly as the Rust code performs it: save the y coordinate of (j,i), copy
the y coordinate of (j,k) into (j,i), then write the saved y value into the
x slot of (j,k) — the store `jitter_boxes[j][k].0 = temp`. -/
def shuffleStep2 {n : Nat} (g : JitterGrid n) (i j k : Fin n) : JitterGrid n :=
  let temp := (g j i).2
  let g1 := gridUpdate g j i ((g j i).1, (g j k).2)
  gridUpdate g1 j k (temp, (g1 j k).2)

/-- shuffle_jittered_sampling (src/main.rs): the first pass iterates j
outer, i inner; the second pass iterates i outer, j inner; the random draws
are passed in as `k1`, `k2`. -/
def shuffleJitteredSampling (n : Nat) (g : JitterGrid n)
    (k1 k2 : Fin n → Fin n → Fin n) : JitterGrid n :=
  let g1 := (List.finRange n).foldl
    (fun g j => (List.finRange n).foldl (fun g i => shuffleStep1 g j i (k1 j i)) g) g
  (List.finRange n).foldl
    (fun g i => (List.finRange n).foldl (fun g j => shuffleStep2 g i j (k2 i j)) g) g1

/-- Index of the N²-cell subgrid stratum a coordinate falls in. -/
def cellIdx (n : Nat) (x : ℚ) : ℤ := Int.floor (x * ((n : ℚ) * n))

/-- Column cell indices of all N² samples. -/
def columnCells (n : Nat) (g : JitterGrid n) : List ℤ :=
  (List.finRange n).bind fun j => (List.finRange n).map fun i => cellIdx n (g j i).1

/-- Row cell indices of all N² samples. -/
def rowCells (n : Nat) (g : JitterGrid n) : List ℤ :=
  (List.finRange n).bind fun j => (List.finRange n).map fun i => cellIdx n (g j i).2

/-- Zero random draws for the concrete evaluation. -/
def rZero : Fin 2 → Fin 2 → ℚ := fun _ _ => 0

/-- First-pass draws: the identity choice k = j (always valid, k ∈ [j, n-1]). -/
def kPass1 : Fin 2 → Fin 2 → Fin 2 := fun j _ => j

/-- Second-pass draws: always k = 1 (valid, k ∈ [i, n-1] for n = 2). -/
def kPass2 : Fin 2 → Fin 2 → Fin 2 := fun _ _ => 1

end JitterDefs

section JitterClaims

/-- C9 evaluation: for N = 2 with zero jitter draws, the canonical
arrangement has exactly one sample per column and one per row of the 4-cell
subgrid — its column cells [0,2,1,3] and row cells [0,1,2,3] are each a
permutation of the four strata — but shuffle_jittered_sampling with the
valid draw sequence (identity first pass, k = 1 second pass) destroys the
stratification: the store `jitter_boxes[j][k].0 = temp` writes a saved y
coordinate into an x slot, so the shuffled column cells are [0,1,1,3] —
two samples in column cell 1 and none in column cell 2. -/
theorem jitter_shuffle_breaks_stratification :
    columnCells 2 (canonicalJitter 2 rZero rZero) = [0, 2, 1, 3] ∧
    rowCells 2 (canonicalJitter 2 rZero rZero) = [0, 1, 2, 3] ∧
    columnCells 2
      (shuffleJitteredSampling 2 (canonicalJitter 2 rZero rZero) kPass1 kPass2) =
      [0, 1, 1, 3] := by
  have h1 : columnCells 2 (canonicalJitter 2 rZero rZero) = [0, 2, 1, 3] := by
    norm_num [columnCells, canonicalJitter, rZero, cellIdx, List.finRange, List.bind,
      List.map]
  have h2 : rowCells 2 (canonicalJitter 2 rZero rZero) = [0, 1, 2, 3] := by
    norm_num [rowCells, canonicalJitter, rZero, cellIdx, List.finRange, List.bind,
      List.map]
  have h3 : columnCells 2
      (shuffleJitteredSampling 2 (canonicalJitter 2 rZero rZero) kPass1 kPass2) =
      [0, 1, 1, 3] := by
    have hg : shuffleJitteredSampling 2 (canonicalJitter 2 rZero rZero) kPass1 kPass2 =
        fun j i =>
          if j = 0 ∧ i = 0 then ((0 : ℚ), (1/4 : ℚ))
          else if j = 0 ∧ i = 1 then ((1/4 : ℚ), (1/4 : ℚ))
          else if j = 1 ∧ i = 0 then ((1/4 : ℚ), (3/4 : ℚ))
          else ((3/4 : ℚ), (3/4 : ℚ)) := by
      funext j i
      fin_cases j <;> fin_cases i <;>
        norm_num [shuffleJitteredSampling, shuffleStep1, shuffleStep2, gridUpdate,
          canonicalJitter, rZero, kPass1, kPass2, List.finRange, List.foldl, Fin.ext_iff]
    rw [hg]
    norm_num [columnCells, cellIdx, List.finRange, List.bind, List.map, Fin.ext_iff]
  exact ⟨h1, h2, h3⟩

end JitterClaims

end RayTracer
